import Mathlib

/-
  Verification development for the stock ledger and point-of-sale engine of a
  multi-tenant pharmacy retail backend (Node/Express/Mongoose).

  Shallow embedding of the relevant JavaScript source:
  * the POS controller: helpers `updateProductStock`, `handleSubdividableProduct`,
    `handleWholeUnitProduct`, `createReconciliationRecords` and the main
    `processSale` flow (one Mongo session / transaction per sale);
  * the stock controller: `updateReconciliation`, `adjustStockFromReconciliation`;
  * the Product model: the `stock.totalUnits` virtual and the `addStock` method.

  Modelling conventions:
  * JS numbers holding stock quantities are modelled as `Int` (the code can drive
    `fullPacks` negative on the whole-unit path, so `Nat` would be unfaithful);
    `Math.ceil`/`Math.floor`/`%` on the nonnegative operands arising here agree
    with `Int.ediv`/`Int.emod` (floor division for a positive divisor).
  * Money amounts are JS floats in the source; no claim under audit concerns
    price arithmetic, so money is modelled as exact `Int` values and each
    product's derived `pricing.pricePerUnit` is taken as a given field.
  * A Mongo transaction is modelled as a transformation of an explicit `DB`
    value: session writes act on a working copy, `commitTransaction` installs
    the copy, `abortTransaction` returns the original `DB` unchanged.
  * The order of persistence steps after the item loop (sale save, reconciliation
    saves, inventory-log saves, commit/abort) is recorded as an event trace so
    that ordering claims (before/after commit) are statable.
-/

namespace Digichem

/-- The embedded `product.stock` sub-document: whole packs on hand and loose
units outside any pack. -/
structure Stock where
  fullPacks : Int
  looseUnits : Int
deriving Repr, DecidableEq

/-- The `stock.totalUnits` virtual of the Product model:
`fullPacks * unitsPerPack + looseUnits`. -/
def totalUnits (unitsPerPack : Int) (s : Stock) : Int :=
  s.fullPacks * unitsPerPack + s.looseUnits

/-- `Math.ceil(a / b)` for the positive operands used by the subdividable
handler: for `0 < b` this is the ceiling of the rational quotient `a / b`. -/
def ceilDiv (a b : Int) : Int :=
  (a + b - 1).ediv b

/-- ASCII lowercasing of one character, modelling JS `String.toLowerCase` on
the unit-type enum values appearing in error messages. -/
def lowChar (c : Char) : Char :=
  if 65 ≤ c.toNat ∧ c.toNat ≤ 90 then Char.ofNat (c.toNat + 32) else c

/-- JS `String.toLowerCase` (ASCII fragment, enough for the unit-type enum). -/
def lowStr (s : String) : String :=
  ⟨s.data.map lowChar⟩

/-- Does the character list start with the pattern? (helper for `jsIncludes`). -/
def charsStartWith : List Char → List Char → Bool
  | [], _ => true
  | _ :: _, [] => false
  | a :: as, b :: bs => a == b && charsStartWith as bs

/-- Does the character list contain the pattern as a contiguous run? -/
def charsContain (pat : List Char) : List Char → Bool
  | [] => charsStartWith pat []
  | c :: rest => charsStartWith pat (c :: rest) || charsContain pat rest

/-- JS `String.prototype.includes` (case-sensitive substring test), used by the
override-mode catch block of `processSale`. -/
def jsIncludes (s pat : String) : Bool :=
  charsContain pat.data s.data

deriving instance DecidableEq for Except

/-- The body of `handleSubdividableProduct` up to (but excluding) the
`product.save` call.  Returns the final in-memory state of the mutated
product document together with the thrown error message, if any: the source
decrements `looseUnits` on the document *before* it can discover that too few
packs remain and throw, so on the throwing path the in-memory document is
already partially mutated but is never saved. -/
def subdividableRun (unitTypeLC : String) (unitsPerPack : Int) (s : Stock) (quantity : Int) :
    Stock × Option String :=
  let unitsFromLoose := min quantity s.looseUnits
  let s1 : Stock := ⟨s.fullPacks, s.looseUnits - unitsFromLoose⟩
  let remainingQuantity := quantity - unitsFromLoose
  if 0 < remainingQuantity then
    let packsToBreak := ceilDiv remainingQuantity unitsPerPack
    if s1.fullPacks < packsToBreak then
      (s1, some ("Not enough " ++ unitTypeLC ++ " available"))
    else
      let unitsFromPacks := packsToBreak * unitsPerPack
      (⟨s1.fullPacks - packsToBreak, s1.looseUnits + (unitsFromPacks - remainingQuantity)⟩,
        none)
  else
    (s1, none)

/-- `handleSubdividableProduct(product, quantity, session)`: consume loose units
first, then break packs; persists (via `product.save`) only when no error was
thrown. -/
def handleSubdividableProduct (unitTypeLC : String) (unitsPerPack : Int) (s : Stock)
    (quantity : Int) : Except String Stock :=
  match subdividableRun unitTypeLC unitsPerPack s quantity with
  | (s1, none) => .ok s1
  | (_, some msg) => .error msg

/-- `handleWholeUnitProduct(product, quantity, session)`: fail up front when
`quantity > totalUnits`, otherwise consume loose units first and subtract the
unit remainder directly from `fullPacks` (each pack treated as one unit).
The closing `product.save({session})` runs the Product schema validators —
`stock.fullPacks` and `stock.looseUnits` both carry a `min` of 0 — so a
decrement that would leave a negative counter throws a ValidationError at
save time and persists nothing. -/
def handleWholeUnitProduct (unitTypeLC : String) (unitsPerPack : Int) (s : Stock)
    (quantity : Int) : Except String Stock :=
  if totalUnits unitsPerPack s < quantity then
    .error ("Not enough " ++ unitTypeLC ++ " available. Only "
      ++ toString (totalUnits unitsPerPack s) ++ " left")
  else
    let unitsFromLoose := min quantity s.looseUnits
    let s1 : Stock := ⟨s.fullPacks, s.looseUnits - unitsFromLoose⟩
    let remainingQuantity := quantity - unitsFromLoose
    let s2 : Stock :=
      if 0 < remainingQuantity then ⟨s1.fullPacks - remainingQuantity, s1.looseUnits⟩
      else s1
    if s2.fullPacks < 0 then
      .error "Product validation failed: stock.fullPacks: Cannot have negative packs"
    else if s2.looseUnits < 0 then
      .error "Product validation failed: stock.looseUnits: Cannot have negative units"
    else
      .ok s2

/-- The `switch (productType)` of `updateProductStock`: Tablets, Capsules and
Grams are subdividable; Bottles, Tubes, Units, Millilitres, Packs and the
default branch are whole-unit. -/
def isSubdividable (unitType : String) : Bool :=
  unitType == "Tablets" || unitType == "Capsules" || unitType == "Grams"

/-- `updateProductStock(product, quantity, session)`: dispatch on the product's
unit type. -/
def updateProductStock (unitType : String) (unitsPerPack : Int) (s : Stock)
    (quantity : Int) : Except String Stock :=
  if isSubdividable unitType then
    handleSubdividableProduct (lowStr unitType) unitsPerPack s quantity
  else
    handleWholeUnitProduct (lowStr unitType) unitsPerPack s quantity

/-- `productSchema.methods.addStock(packs, units)` of the Product model: add to
both counters, then convert every complete `unitsPerPack` multiple of
`looseUnits` into full packs.  The source falls back to `1` when
`pricing.unitsPerPack` is falsy. -/
def addStock (unitsPerPack : Int) (s : Stock) (packs units : Int) : Stock :=
  let upp := if unitsPerPack = 0 then 1 else unitsPerPack
  let looseUnits := s.looseUnits + units
  let additionalPacks := looseUnits.ediv upp
  ⟨s.fullPacks + packs + additionalPacks, looseUnits.emod upp⟩

/-- The slice of a catalog Product document that the POS engine reads:
identifier, name snapshot, status, unit type, pack size, derived unit price
and the stock sub-document. -/
structure Product where
  pid : Nat
  name : String
  status : String
  unitType : String
  unitsPerPack : Int
  pricePerUnit : Int
  stock : Stock
deriving Repr, DecidableEq

/-- One line of the checkout request body: `{productId, quantity}`. -/
structure ItemReq where
  productId : Nat
  quantity : Int
deriving Repr, DecidableEq

/-- One entry of `metadata.stockWarnings` on a sale. -/
structure StockWarning where
  product : String
  requested : Int
  available : Int
  deficit : Int
deriving Repr, DecidableEq

/-- One snapshotted line item of a persisted Sale. -/
structure SaleItem where
  productRef : Nat
  productName : String
  quantity : Int
  unitPrice : Int
  total : Int
  unitType : String
deriving Repr, DecidableEq

/-- The persisted Sale document (fields relevant to the claims). -/
structure SaleRec where
  items : List SaleItem
  subtotal : Int
  totalAmount : Int
  amountPaid : Int
  changeDue : Int
  paymentMethod : String
  ignoreStock : Bool
  stockWarnings : List StockWarning
deriving Repr, DecidableEq

/-- A StockReconciliation document.  `resolvedAtSet` models whether
`resolvedAt` has been stamped (the update pipeline passes `undefined`, i.e.
leaves the field alone, for non-terminal statuses). -/
structure ReconCase where
  productRef : Nat
  productName : String
  quantitySold : Int
  availableStock : Int
  deficit : Int
  status : String
  resolutionNotes : Option String
  action : Option String
  resolvedAtSet : Bool
deriving Repr, DecidableEq

/-- An InventoryLog document (fields relevant to the claims). -/
structure LogEntry where
  action : String
  productRef : Nat
  quantity : Int
  reconciliationId : Option Nat
deriving Repr, DecidableEq

/-- Persistence events of one `processSale` call, in source order, used to
state where reconciliation-case creation happens relative to the commit. -/
inductive Ev where
  | stockWrite (pid : Nat) (s : Stock)
  | saleSave
  | reconSave (c : ReconCase)
  | logSave
  | commitTx
  | abortTx
deriving Repr, DecidableEq

/-- The tenant's persisted state as seen by the POS engine. -/
structure DB where
  products : List Product
  sales : List SaleRec
  recons : List ReconCase
  logs : List LogEntry
deriving Repr, DecidableEq

/-- The checkout request body of `processSale`. -/
structure SaleReq where
  items : List ItemReq
  paymentMethod : Option String
  amountPaid : Int
  ignoreStock : Bool
deriving Repr, DecidableEq

/-- The HTTP-level outcome of `processSale` (the typed failures and the
success payload). -/
inductive SaleOutcome where
  | notFound (productId : Nat)
  | inactive (productName : String)
  | insufficientStock (productName : String) (available requested : Int)
  | insufficientPayment (total paid : Int)
  | serverError
  | committed (sale : SaleRec) (warnings : List StockWarning)
deriving Repr, DecidableEq

/-- In-transaction working state of one sale: the session's view of the
products plus the accumulators built up by the item loop. -/
structure TxState where
  products : List Product
  totalAmount : Int
  saleItems : List SaleItem
  stockWarnings : List StockWarning
  trace : List Ev
deriving Repr, DecidableEq

/-- `Product.findById(...).session(session)`: first match by id in the
session's view. -/
def lookup (ps : List Product) (productId : Nat) : Option Product :=
  ps.find? (fun p => p.pid == productId)

/-- Persisting `product.save({session})`: replace the stock of the (first)
document with this id in the session's view. -/
def setStock : List Product → Nat → Stock → List Product
  | [], _, _ => []
  | p :: ps, pid, s =>
    if p.pid = pid then { p with stock := s } :: ps else p :: setStock ps pid s

/-- One iteration of the `for (const item of items)` loop of `processSale`:
load and validate the product, price the line, then either enforce stock
(strict mode) or record a warning and attempt a best-effort decrement
(override mode, mutator errors swallowed). -/
def processLine (ignoreStock : Bool) (tx : TxState) (item : ItemReq) :
    Except SaleOutcome TxState :=
  match lookup tx.products item.productId with
  | none => .error (.notFound item.productId)
  | some product =>
    if product.status ≠ "active" then
      .error (.inactive product.name)
    else
      let itemTotal := item.quantity * product.pricePerUnit
      let tx1 : TxState :=
        { tx with
          totalAmount := tx.totalAmount + itemTotal
          saleItems := tx.saleItems ++
            [⟨product.pid, product.name, item.quantity, product.pricePerUnit, itemTotal,
              product.unitType⟩] }
      if !ignoreStock then
        if totalUnits product.unitsPerPack product.stock < item.quantity then
          .error (.insufficientStock product.name
            (totalUnits product.unitsPerPack product.stock) item.quantity)
        else
          match updateProductStock product.unitType product.unitsPerPack product.stock
              item.quantity with
          | .error _ => .error .serverError
          | .ok s => .ok { tx1 with
              products := setStock tx1.products product.pid s
              trace := tx1.trace ++ [.stockWrite product.pid s] }
      else
        let available := totalUnits product.unitsPerPack product.stock
        let hasStockShortage := available < item.quantity
        let tx2 : TxState :=
          if hasStockShortage then
            { tx1 with stockWarnings := tx1.stockWarnings ++
                [⟨product.name, item.quantity, available, item.quantity - available⟩] }
          else tx1
        match updateProductStock product.unitType product.unitsPerPack product.stock
            item.quantity with
        | .ok s => .ok { tx2 with
            products := setStock tx2.products product.pid s
            trace := tx2.trace ++ [.stockWrite product.pid s] }
        | .error msg =>
          if (jsIncludes msg "not enough" || jsIncludes msg "insufficient")
              && !hasStockShortage then
            .ok { tx2 with stockWarnings := tx2.stockWarnings ++
                [⟨product.name, item.quantity, available, item.quantity - available⟩] }
          else
            .ok tx2

/-- The item loop of `processSale`; the first early `return` aborts the
transaction. -/
def processItems (ignoreStock : Bool) (tx : TxState) : List ItemReq →
    Except SaleOutcome TxState
  | [] => .ok tx
  | item :: rest =>
    match processLine ignoreStock tx item with
    | .error o => .error o
    | .ok tx1 => processItems ignoreStock tx1 rest

/-- `createReconciliationRecords(sale, stockWarnings, session)`: keep warnings
with an actual deficit, look each product up by name in the session, and save
one pending StockReconciliation per such warning.  Any error inside the body
is caught and logged (`reconOk = false` models a failure on entry); the sale
is never failed from here. -/
def createReconciliationRecords (ps : List Product) (stockWarnings : List StockWarning)
    (reconOk : Bool) : List ReconCase :=
  if !reconOk then []
  else
    (stockWarnings.filter (fun w => 0 < w.deficit)).filterMap (fun w =>
      match ps.find? (fun p => p.name == w.product) with
      | some p =>
        if (0 : Int) < w.deficit then
          some (⟨p.pid, w.product, w.requested, w.available, w.deficit, "pending",
            none, none, false⟩ : ReconCase)
        else none
      | none => none)

/-- The post-loop inventory-log pass of `processSale`: re-fetch each item's
product in the session and create one `sale` log entry per item; a missing
product would crash and abort (`none`). -/
def saleLogs (ps : List Product) : List ItemReq → Option (List LogEntry)
  | [] => some []
  | item :: rest =>
    match lookup ps item.productId with
    | none => none
    | some p => (saleLogs ps rest).map (fun ls => ⟨"sale", p.pid, item.quantity, none⟩ :: ls)

/-- The result of one `processSale` call: HTTP outcome, the tenant state after
commit/abort, and the trace of post-loop persistence events. -/
structure SaleResult where
  outcome : SaleOutcome
  db : DB
  trace : List Ev
deriving Repr, DecidableEq

/-- `processSale(req, res)`: run the item loop, validate payment, persist the
sale, create reconciliation records for override-mode warnings (inside the
same session), write inventory logs, then commit; every early return aborts
the transaction, discarding all session writes. -/
def processSale (db : DB) (req : SaleReq) (reconOk : Bool) : SaleResult :=
  match processItems req.ignoreStock
      ⟨db.products, 0, [], [], []⟩ req.items with
  | .error o => ⟨o, db, [.abortTx]⟩
  | .ok tx =>
    if req.amountPaid < tx.totalAmount then
      ⟨.insufficientPayment tx.totalAmount req.amountPaid, db, tx.trace ++ [.abortTx]⟩
    else
      let changeDue := max 0 (req.amountPaid - tx.totalAmount)
      let sale : SaleRec :=
        ⟨tx.saleItems, tx.totalAmount, tx.totalAmount, req.amountPaid, changeDue,
          req.paymentMethod.getD "cash", req.ignoreStock, tx.stockWarnings⟩
      let recons :=
        if req.ignoreStock && !tx.stockWarnings.isEmpty then
          createReconciliationRecords tx.products tx.stockWarnings reconOk
        else []
      match saleLogs tx.products req.items with
      | none =>
        ⟨.serverError, db,
          tx.trace ++ [.saleSave] ++ recons.map Ev.reconSave ++ [.abortTx]⟩
      | some logs =>
        ⟨.committed sale tx.stockWarnings,
          ⟨tx.products, db.sales ++ [sale], db.recons ++ recons, db.logs ++ logs⟩,
          tx.trace ++ [.saleSave] ++ recons.map Ev.reconSave
            ++ logs.map (fun _ => Ev.logSave) ++ [.commitTx]⟩

/-- The product update performed by one override-mode line: full decrement on
success, document untouched when the mutator throws (the error is swallowed). -/
def overrideStep (ps : List Product) (item : ItemReq) : List Product :=
  match lookup ps item.productId with
  | none => ps
  | some p =>
    match updateProductStock p.unitType p.unitsPerPack p.stock item.quantity with
    | .ok s => setStock ps p.pid s
    | .error _ => ps

/-- Characterization of the warnings an override-mode item loop produces: one
warning per line whose quantity exceeds that product's `totalUnits` at the
moment the line is processed, none for covered lines. -/
def overrideWarnings (ps : List Product) : List ItemReq → List StockWarning
  | [] => []
  | item :: rest =>
    (match lookup ps item.productId with
     | none => []
     | some p =>
       let available := totalUnits p.unitsPerPack p.stock
       if available < item.quantity then
         [⟨p.name, item.quantity, available, item.quantity - available⟩]
       else []) ++
    overrideWarnings (overrideStep ps item) rest

/-- The total the item loop accumulates: each line priced at the product's
current per-unit price (prices never change during the loop). -/
def itemsTotal (ps : List Product) (items : List ItemReq) : Int :=
  (items.map (fun item =>
    match lookup ps item.productId with
    | some p => item.quantity * p.pricePerUnit
    | none => 0)).sum

/-- Events of a trace strictly before the commit event. -/
def preCommit (tr : List Ev) : List Ev :=
  tr.takeWhile (fun e => !(e == Ev.commitTx))

/-- Events of a trace strictly after the commit event. -/
def postCommit (tr : List Ev) : List Ev :=
  (tr.dropWhile (fun e => !(e == Ev.commitTx))).drop 1

/-- Is this event a reconciliation-case save? -/
def isReconSave : Ev → Bool
  | .reconSave _ => true
  | _ => false

/-- Did the sale commit? -/
def isCommitted : SaleOutcome → Bool
  | .committed _ _ => true
  | _ => false

/-- Did the mutator throw? -/
def stockErr : Except String Stock → Bool
  | .error _ => true
  | .ok _ => false

/-- Did the mutator throw the insufficient-stock error — a message starting
with `Not enough`, as both handlers produce for a genuine shortage — as
opposed to a save-time ValidationError? -/
def isStockShortageErr (e : Except String Stock) : Bool :=
  match e with
  | .error m => charsStartWith ("Not enough".data) m.data
  | .ok _ => false

/-- The state of the Reconciliation Ledger and the documents its operations
touch. -/
structure ReconDB where
  cases : List (Nat × ReconCase)
  products : List Product
  logs : List LogEntry
deriving Repr, DecidableEq

/-- Outcome of a reconciliation-ledger operation. -/
inductive ReconOutcome where
  | notFound
  | updated (c : ReconCase)
  | adjusted (c : ReconCase) (newStock : Stock)
deriving Repr, DecidableEq

/-- Replace the (first) case with this id. -/
def setCase : List (Nat × ReconCase) → Nat → ReconCase → List (Nat × ReconCase)
  | [], _, _ => []
  | e :: es, id, c => if e.1 = id then (e.1, c) :: es else e :: setCase es id c

/-- `updateReconciliation` (PUT /reconciliations/:id): a
`findOneAndUpdate` filtered only by id (and tenant) that writes the requested
`status`, notes and action unconditionally — there is no guard on the current
status.  `resolvedAt` is stamped only for `resolved`/`adjusted` (for other
statuses the update passes `undefined`, leaving the field alone). -/
def updateReconciliation (db : ReconDB) (id : Nat) (status : String)
    (resolutionNotes action : Option String) : ReconOutcome × ReconDB :=
  match db.cases.find? (fun e => e.1 == id) with
  | none => (.notFound, db)
  | some e =>
    let c := e.2
    let c1 : ReconCase :=
      { c with
        status := status
        resolutionNotes := resolutionNotes
        action := action
        resolvedAtSet :=
          if status = "resolved" ∨ status = "adjusted" then true else c.resolvedAtSet }
    (.updated c1, { db with cases := setCase db.cases id c1 })

/-- `adjustStockFromReconciliation` (POST /reconciliations/:id/adjust): find
the case by id *with status `pending`* (404 otherwise), add
`adjustmentQuantity` loose units to the deficit product via
`Product.addStock(0, q)`, mark the case `adjusted`, and write one
`stock_adjust` InventoryLog entry back-referencing the case. -/
def adjustStockFromReconciliation (db : ReconDB) (id : Nat) (adjustmentQuantity : Int)
    (notes : Option String) : ReconOutcome × ReconDB :=
  match db.cases.find? (fun e => e.1 == id && e.2.status == "pending") with
  | none => (.notFound, db)
  | some e =>
    let c := e.2
    match lookup db.products c.productRef with
    | none => (.notFound, db)
    | some p =>
      let s1 := addStock p.unitsPerPack p.stock 0 adjustmentQuantity
      let c1 : ReconCase :=
        { c with
          status := "adjusted"
          resolvedAtSet := true
          resolutionNotes := some (notes.getD "Stock adjusted")
          action := some "stock_adjusted" }
      (.adjusted c1 s1,
        ⟨setCase db.cases id c1, setStock db.products p.pid s1,
          db.logs ++ [⟨"stock_adjust", p.pid, adjustmentQuantity, some id⟩]⟩)

/-- Product metadata untouched by the item loop (only the `stock` sub-document
changes). -/
def SameMeta (p q : Product) : Prop :=
  q.pid = p.pid ∧ q.name = p.name ∧ q.status = p.status ∧ q.unitType = p.unitType ∧
    q.unitsPerPack = p.unitsPerPack ∧ q.pricePerUnit = p.pricePerUnit

/-- How the session's copy of a product document evolves during one sale:
metadata is unchanged, `totalUnits` never increases (the loop only
decrements), and both stock counters stay nonnegative (every persisted write
passed the schema's `min` validators at save time). -/
def Evolves (p q : Product) : Prop :=
  SameMeta p q ∧
    totalUnits q.unitsPerPack q.stock ≤ totalUnits p.unitsPerPack p.stock ∧
    0 ≤ q.stock.looseUnits ∧
    0 ≤ q.stock.fullPacks

/-- Schema-level validity of a stored product: `unitsPerPack ≥ 1` and
nonnegative stock counters (the Product schema's `min` validators). -/
def GoodProd (p : Product) : Prop :=
  1 ≤ p.unitsPerPack ∧ 0 ≤ p.stock.fullPacks ∧ 0 ≤ p.stock.looseUnits

/-- A reconciliation case records exactly the data of a stock warning, in
`pending` state. -/
def ReconMatches (w : StockWarning) (c : ReconCase) : Prop :=
  c.productName = w.product ∧ c.quantitySold = w.requested ∧
    c.availableStock = w.available ∧ c.deficit = w.deficit ∧ c.status = "pending"

/-- Example catalog entry: subdividable, 10 units per pack, 3 loose units. -/
def exProd : Product := ⟨0, "Amoxicillin", "active", "Tablets", 10, 5, ⟨0, 3⟩⟩

/-- Example tenant state holding only `exProd`. -/
def exDb : DB := ⟨[exProd], [], [], []⟩

/-- Example override-mode checkout requesting 5 of the 3 available units. -/
def exReq : SaleReq := ⟨[⟨0, 5⟩], none, 25, true⟩

/-- Example catalog entry with 2 packs and 3 loose units (23 total). -/
def exProdB : Product := ⟨0, "Amoxicillin", "active", "Tablets", 10, 5, ⟨2, 3⟩⟩

/-- Example tenant state holding only `exProdB`. -/
def exDbB : DB := ⟨[exProdB], [], [], []⟩

/-- Example strict-mode checkout requesting 25 of the 23 available units. -/
def exReqB : SaleReq := ⟨[⟨0, 25⟩], none, 200, false⟩

/-- Example pending reconciliation case with deficit 2 for `exProd`. -/
def exCase : ReconCase := ⟨0, "Amoxicillin", 5, 3, 2, "pending", none, none, false⟩

/-- Example ledger state with one pending case. -/
def exRecDb : ReconDB := ⟨[(1, exCase)], [exProd], []⟩

/-- Example already-adjusted (terminal) reconciliation case. -/
def exCaseDone : ReconCase :=
  ⟨0, "Amoxicillin", 5, 3, 2, "adjusted", none, some "stock_adjusted", true⟩

/-- Example ledger state whose only case is terminal. -/
def exRecDbDone : ReconDB := ⟨[(1, exCaseDone)], [exProd], []⟩

/-- Example whole-unit catalog entry: Bottles, 5 units per pack, 1 pack and
no loose units (5 units total but only 1 pack on hand). -/
def exProdW : Product := ⟨0, "Saline", "active", "Bottles", 5, 7, ⟨1, 0⟩⟩

/-- Example tenant state holding only `exProdW`. -/
def exDbW : DB := ⟨[exProdW], [], [], []⟩

/-- Example strict-mode checkout against `exProdW`: first 2 bottles (within
`totalUnits` but beyond `fullPacks + looseUnits`), then 7 bottles (a genuine
shortage). -/
def exReqW : SaleReq := ⟨[⟨0, 2⟩, ⟨0, 7⟩], none, 100, false⟩

theorem ceilDiv_le_iff {b : Int} (hb : 0 < b) (a c : Int) :
    ceilDiv a b ≤ c ↔ a ≤ c * b := by
  have h2 : (a + b - 1).ediv b < c + 1 ↔ a + b - 1 < (c + 1) * b :=
    Int.ediv_lt_iff_lt_mul hb
  have h3 : (c + 1) * b = c * b + b := by ring
  unfold ceilDiv
  constructor
  · intro h
    have h5 : a + b - 1 < c * b + b := by rw [← h3]; exact h2.mp (Int.lt_add_one_iff.mpr h)
    exact Int.lt_add_one_iff.mp (by linarith)
  · intro h
    have h5 : a + b - 1 < (c + 1) * b := by rw [h3]; linarith
    exact Int.lt_add_one_iff.mp (h2.mpr h5)

theorem lt_ceilDiv_iff {b : Int} (hb : 0 < b) (a c : Int) :
    c < ceilDiv a b ↔ c * b < a := by
  constructor
  · intro h
    by_contra hc
    push_neg at hc
    exact absurd ((ceilDiv_le_iff hb a c).mpr hc) (not_le.mpr h)
  · intro h
    by_contra hc
    push_neg at hc
    exact absurd ((ceilDiv_le_iff hb a c).mp hc) (not_le.mpr h)

theorem le_ceilDiv_mul {b : Int} (hb : 0 < b) (a : Int) : a ≤ ceilDiv a b * b :=
  (ceilDiv_le_iff hb a (ceilDiv a b)).mp le_rfl

theorem stockErr_false {e : Except String Stock} :
    stockErr e = false ↔ ∃ s1, e = .ok s1 := by
  cases e <;> simp [stockErr]

theorem stockErr_true {e : Except String Stock} :
    stockErr e = true ↔ ∃ m, e = .error m := by
  cases e <;> simp [stockErr]

theorem charsStartWith_prefix :
    ∀ (pre rest : List Char), charsStartWith pre (pre ++ rest) = true := by
  intro pre
  induction pre with
  | nil => intro rest; rfl
  | cons a as ih => intro rest; simp [charsStartWith, ih]

theorem charsStartWith_not_enough (rest : List Char) :
    charsStartWith ("Not enough".data) (("Not enough ").data ++ rest) = true := by
  have h2 : ("Not enough ").data = ("Not enough").data ++ [' '] := by decide
  rw [h2, List.append_assoc]
  exact charsStartWith_prefix _ _

theorem sub_ok_loose (utl : String) (upp : Int) (s : Stock) (q : Int)
    (h : q ≤ s.looseUnits) :
    handleSubdividableProduct utl upp s q = .ok ⟨s.fullPacks, s.looseUnits - q⟩ := by
  unfold handleSubdividableProduct subdividableRun
  rw [min_eq_left h]
  simp

theorem sub_ok_break (utl : String) (upp : Int) (s : Stock) (q : Int)
    (h : s.looseUnits < q) (hp : ceilDiv (q - s.looseUnits) upp ≤ s.fullPacks) :
    handleSubdividableProduct utl upp s q =
      .ok ⟨s.fullPacks - ceilDiv (q - s.looseUnits) upp,
        ceilDiv (q - s.looseUnits) upp * upp - (q - s.looseUnits)⟩ := by
  unfold handleSubdividableProduct subdividableRun
  rw [min_eq_right h.le]
  have h0 : (0 : Int) < q - s.looseUnits := by omega
  rw [if_pos h0, if_neg (not_lt.mpr hp)]
  simp

theorem sub_err (utl : String) (upp : Int) (s : Stock) (q : Int)
    (h : s.looseUnits < q) (hp : s.fullPacks < ceilDiv (q - s.looseUnits) upp) :
    handleSubdividableProduct utl upp s q = .error ("Not enough " ++ utl ++ " available") := by
  unfold handleSubdividableProduct subdividableRun
  rw [min_eq_right h.le]
  have h0 : (0 : Int) < q - s.looseUnits := by omega
  rw [if_pos h0, if_pos hp]

theorem sub_err_iff (utl : String) {upp : Int} (hupp : 0 < upp) {s : Stock}
    (hfp : 0 ≤ s.fullPacks) (q : Int) :
    stockErr (handleSubdividableProduct utl upp s q) = true ↔ totalUnits upp s < q := by
  by_cases h1 : q ≤ s.looseUnits
  · rw [sub_ok_loose utl upp s q h1]
    have h3 : 0 ≤ s.fullPacks * upp := mul_nonneg hfp hupp.le
    have h2 : ¬ totalUnits upp s < q := by unfold totalUnits; exact not_lt.mpr (by linarith)
    simp [stockErr, h2]
  · push_neg at h1
    by_cases h2 : ceilDiv (q - s.looseUnits) upp ≤ s.fullPacks
    · rw [sub_ok_break utl upp s q h1 h2]
      have h3 : q - s.looseUnits ≤ s.fullPacks * upp := (ceilDiv_le_iff hupp _ _).mp h2
      have h4 : ¬ totalUnits upp s < q := by unfold totalUnits; exact not_lt.mpr (by linarith)
      simp [stockErr, h4]
    · push_neg at h2
      rw [sub_err utl upp s q h1 h2]
      have h3 : s.fullPacks * upp < q - s.looseUnits := (lt_ceilDiv_iff hupp _ _).mp h2
      have h4 : totalUnits upp s < q := by unfold totalUnits; linarith
      simp [stockErr, h4]

theorem sub_ok_total {utl : String} {upp : Int} {s : Stock} {q : Int} {s1 : Stock}
    (hok : handleSubdividableProduct utl upp s q = .ok s1) :
    totalUnits upp s1 = totalUnits upp s - q := by
  by_cases h1 : q ≤ s.looseUnits
  · rw [sub_ok_loose utl upp s q h1] at hok
    cases hok
    unfold totalUnits
    ring
  · push_neg at h1
    by_cases h2 : ceilDiv (q - s.looseUnits) upp ≤ s.fullPacks
    · rw [sub_ok_break utl upp s q h1 h2] at hok
      cases hok
      unfold totalUnits
      ring
    · push_neg at h2
      rw [sub_err utl upp s q h1 h2] at hok
      cases hok

theorem sub_ok_bounds {utl : String} {upp : Int} {s : Stock} {q : Int} {s1 : Stock}
    (hupp : 0 < upp) (hfp : 0 ≤ s.fullPacks) (hlu : 0 ≤ s.looseUnits) (hq : 0 ≤ q)
    (hok : handleSubdividableProduct utl upp s q = .ok s1) :
    0 ≤ s1.fullPacks ∧ 0 ≤ s1.looseUnits := by
  by_cases h1 : q ≤ s.looseUnits
  · rw [sub_ok_loose utl upp s q h1] at hok
    cases hok
    exact ⟨hfp, by simp only []; omega⟩
  · push_neg at h1
    by_cases h2 : ceilDiv (q - s.looseUnits) upp ≤ s.fullPacks
    · rw [sub_ok_break utl upp s q h1 h2] at hok
      cases hok
      have h3 := le_ceilDiv_mul hupp (q - s.looseUnits)
      exact ⟨by simp only []; omega, by simp only []; linarith⟩
    · push_neg at h2
      rw [sub_err utl upp s q h1 h2] at hok
      cases hok

theorem whole_shortage (utl : String) (upp : Int) (s : Stock) (q : Int)
    (h : totalUnits upp s < q) :
    handleWholeUnitProduct utl upp s q =
      .error ("Not enough " ++ utl ++ " available. Only "
        ++ toString (totalUnits upp s) ++ " left") := by
  unfold handleWholeUnitProduct
  rw [if_pos h]

theorem whole_ok (utl : String) (upp : Int) (s : Stock) (q : Int)
    (h : ¬ totalUnits upp s < q) (hfp : 0 ≤ s.fullPacks) (hlu : 0 ≤ s.looseUnits)
    (hcov : q ≤ s.fullPacks + s.looseUnits) :
    handleWholeUnitProduct utl upp s q =
      .ok (if q ≤ s.looseUnits then ⟨s.fullPacks, s.looseUnits - q⟩
        else ⟨s.fullPacks - (q - s.looseUnits), 0⟩) := by
  unfold handleWholeUnitProduct
  rw [if_neg h]
  by_cases h1 : q ≤ s.looseUnits
  · rw [if_pos h1, min_eq_left h1]
    have h0 : ¬ (0 : Int) < q - q := by omega
    have hv1 : ¬ s.fullPacks < 0 := not_lt.mpr hfp
    have hv2 : ¬ s.looseUnits - q < 0 := by omega
    simp [h0, hv1, hv2]
  · push_neg at h1
    rw [if_neg (not_le.mpr h1), min_eq_right h1.le]
    have h0 : (0 : Int) < q - s.looseUnits := by omega
    have hv1 : ¬ s.fullPacks - (q - s.looseUnits) < 0 := by omega
    simp [h0, hv1]

theorem whole_valerr (utl : String) (upp : Int) (s : Stock) (q : Int)
    (h : ¬ totalUnits upp s < q) (hfp : 0 ≤ s.fullPacks)
    (hcov : s.fullPacks + s.looseUnits < q) :
    handleWholeUnitProduct utl upp s q =
      .error "Product validation failed: stock.fullPacks: Cannot have negative packs" := by
  unfold handleWholeUnitProduct
  rw [if_neg h]
  rw [min_eq_right (by omega : s.looseUnits ≤ q)]
  have h0 : (0 : Int) < q - s.looseUnits := by omega
  have hv1 : s.fullPacks - (q - s.looseUnits) < 0 := by omega
  simp [h0, hv1]

theorem whole_ok_inv {utl : String} {upp : Int} {s s1 : Stock} {q : Int}
    (hupp : 0 < upp) (hq : 0 ≤ q)
    (hok : handleWholeUnitProduct utl upp s q = .ok s1) :
    totalUnits upp s1 ≤ totalUnits upp s ∧ 0 ≤ s1.looseUnits ∧ 0 ≤ s1.fullPacks := by
  unfold handleWholeUnitProduct at hok
  by_cases h : totalUnits upp s < q
  · rw [if_pos h] at hok
    exact Except.noConfusion hok
  · rw [if_neg h] at hok
    dsimp only at hok
    by_cases h1 : q ≤ s.looseUnits
    · rw [min_eq_left h1] at hok
      have h0 : ¬ (0 : Int) < q - q := by omega
      rw [if_neg h0] at hok
      by_cases hv1 : s.fullPacks < 0
      · rw [if_pos hv1] at hok
        exact Except.noConfusion hok
      · rw [if_neg hv1] at hok
        by_cases hv2 : s.looseUnits - q < 0
        · rw [if_pos hv2] at hok
          exact Except.noConfusion hok
        · rw [if_neg hv2] at hok
          injection hok with h2
          subst h2
          refine ⟨?_, by dsimp only; omega, by dsimp only; omega⟩
          unfold totalUnits
          dsimp only
          linarith
    · push_neg at h1
      rw [min_eq_right h1.le] at hok
      have h0 : (0 : Int) < q - s.looseUnits := by omega
      rw [if_pos h0] at hok
      by_cases hv1 : s.fullPacks - (q - s.looseUnits) < 0
      · rw [if_pos hv1] at hok
        exact Except.noConfusion hok
      · rw [if_neg hv1] at hok
        by_cases hv2 : s.looseUnits - s.looseUnits < 0
        · rw [if_pos hv2] at hok
          exact Except.noConfusion hok
        · rw [if_neg hv2] at hok
          injection hok with h2
          subst h2
          refine ⟨?_, by dsimp only; omega, by dsimp only; omega⟩
          unfold totalUnits
          dsimp only
          have hmul : 0 ≤ (q - s.looseUnits) * (upp - 1) :=
            mul_nonneg (by omega) (by omega)
          nlinarith [hmul]

theorem whole_shortage_iff (utl : String) (upp : Int) (s : Stock) (q : Int) :
    isStockShortageErr (handleWholeUnitProduct utl upp s q) = true ↔
      totalUnits upp s < q := by
  by_cases h : totalUnits upp s < q
  · rw [whole_shortage utl upp s q h]
    simp only [h, iff_true]
    unfold isStockShortageErr
    simp only [String.data_append, List.append_assoc]
    exact charsStartWith_not_enough _
  · simp only [h, iff_false]
    unfold handleWholeUnitProduct
    rw [if_neg h]
    dsimp only
    intro hc
    repeat' split at hc
    all_goals try exact absurd hc (by decide)
    all_goals simp [isStockShortageErr] at hc

theorem sub_shortage_iff (utl : String) {upp : Int} (hupp : 0 < upp) {s : Stock}
    (hfp : 0 ≤ s.fullPacks) (q : Int) :
    isStockShortageErr (handleSubdividableProduct utl upp s q) = true ↔
      totalUnits upp s < q := by
  rw [← sub_err_iff utl hupp hfp q]
  by_cases h1 : q ≤ s.looseUnits
  · rw [sub_ok_loose utl upp s q h1]
    simp [isStockShortageErr, stockErr]
  · push_neg at h1
    by_cases h2 : ceilDiv (q - s.looseUnits) upp ≤ s.fullPacks
    · rw [sub_ok_break utl upp s q h1 h2]
      simp [isStockShortageErr, stockErr]
    · push_neg at h2
      rw [sub_err utl upp s q h1 h2]
      simp only [stockErr, iff_true]
      unfold isStockShortageErr
      simp only [String.data_append, List.append_assoc]
      exact charsStartWith_not_enough _

theorem whole_ok_iff (utl : String) {upp : Int} (hupp : 0 < upp) (s : Stock) {q : Int}
    (hq : 0 ≤ q) (hfp : 0 ≤ s.fullPacks) (hlu : 0 ≤ s.looseUnits)
    (h : ¬ totalUnits upp s < q) (hcov : q ≤ s.fullPacks + s.looseUnits) :
    ∃ s1, handleWholeUnitProduct utl upp s q = .ok s1 ∧
      totalUnits upp s1 ≤ totalUnits upp s ∧ 0 ≤ s1.looseUnits ∧
      (totalUnits upp s1 = totalUnits upp s - q ↔ upp = 1 ∨ q ≤ s.looseUnits) := by
  rw [whole_ok utl upp s q h hfp hlu hcov]
  by_cases h1 : q ≤ s.looseUnits
  · rw [if_pos h1]
    refine ⟨_, rfl, ?_, ?_, iff_of_true (by unfold totalUnits; ring) (Or.inr h1)⟩
    · unfold totalUnits
      simp only []
      linarith
    · simp only []
      omega
  · rw [if_neg h1]
    push_neg at h1
    have hexp : (s.fullPacks - (q - s.looseUnits)) * upp
        = s.fullPacks * upp - (q - s.looseUnits) * upp := by ring
    have h2 : 0 ≤ (q - s.looseUnits) * upp := mul_nonneg (by omega) hupp.le
    refine ⟨_, rfl, ?_, le_refl 0, ?_⟩
    · unfold totalUnits
      simp only []
      linarith [hexp]
    · constructor
      · intro he
        have h3 : (q - s.looseUnits) * (upp - 1) = 0 := by
          have h4 : (s.fullPacks - (q - s.looseUnits)) * upp + 0
              - (totalUnits upp s - q) = -((q - s.looseUnits) * (upp - 1)) := by
            unfold totalUnits; ring
          unfold totalUnits at he h4
          dsimp only at he
          linarith [h4, he]
        rcases mul_eq_zero.mp h3 with h4 | h4
        · omega
        · left; omega
      · intro hor
        rcases hor with h2 | h2
        · subst h2
          unfold totalUnits
          ring
        · exact absurd h2 (not_le.mpr h1)

theorem update_shortage_iff {ut : String} {upp : Int} (hupp : 0 < upp) {s : Stock}
    (hfp : 0 ≤ s.fullPacks) (q : Int) :
    isStockShortageErr (updateProductStock ut upp s q) = true ↔
      totalUnits upp s < q := by
  unfold updateProductStock
  by_cases h : isSubdividable ut = true
  · rw [if_pos h]
    exact sub_shortage_iff _ hupp hfp q
  · rw [if_neg h]
    exact whole_shortage_iff _ upp s q

theorem update_err_iff_sub {ut : String} {upp : Int} (hupp : 0 < upp) {s : Stock}
    (hfp : 0 ≤ s.fullPacks) (q : Int) (hsub : isSubdividable ut = true) :
    stockErr (updateProductStock ut upp s q) = true ↔ totalUnits upp s < q := by
  unfold updateProductStock
  rw [if_pos hsub]
  exact sub_err_iff _ hupp hfp q

theorem update_err_no_shortage {ut : String} {upp : Int} (hupp : 0 < upp) {s : Stock}
    (hfp : 0 ≤ s.fullPacks) {q : Int} {msg : String}
    (herr : updateProductStock ut upp s q = .error msg)
    (hns : ¬ totalUnits upp s < q) :
    msg = "Product validation failed: stock.fullPacks: Cannot have negative packs" ∨
      msg = "Product validation failed: stock.looseUnits: Cannot have negative units" := by
  unfold updateProductStock at herr
  by_cases h : isSubdividable ut = true
  · rw [if_pos h] at herr
    have herr2 : stockErr (handleSubdividableProduct (lowStr ut) upp s q) = true := by
      rw [herr]
      rfl
    exact absurd ((sub_err_iff _ hupp hfp q).mp herr2) hns
  · rw [if_neg h] at herr
    unfold handleWholeUnitProduct at herr
    rw [if_neg hns] at herr
    dsimp only at herr
    repeat' split at herr
    all_goals first
      | (injection herr with h1
         exact Or.inl h1.symm)
      | (injection herr with h1
         exact Or.inr h1.symm)
      | exact Except.noConfusion herr

theorem update_ok_facts {ut : String} {upp : Int} {s s1 : Stock} {q : Int}
    (hupp : 0 < upp) (hfp : 0 ≤ s.fullPacks) (hlu : 0 ≤ s.looseUnits) (hq : 0 ≤ q)
    (hok : updateProductStock ut upp s q = .ok s1) :
    totalUnits upp s1 ≤ totalUnits upp s ∧ 0 ≤ s1.looseUnits ∧ 0 ≤ s1.fullPacks := by
  unfold updateProductStock at hok
  by_cases h : isSubdividable ut = true
  · rw [if_pos h] at hok
    have ht := sub_ok_total hok
    have hb := sub_ok_bounds hupp hfp hlu hq hok
    exact ⟨by linarith [ht], hb.2, hb.1⟩
  · rw [if_neg h] at hok
    exact whole_ok_inv hupp hq hok

theorem addStock_total {upp : Int} (hupp : 0 < upp) (s : Stock) (packs units : Int) :
    totalUnits upp (addStock upp s packs units) = totalUnits upp s + packs * upp + units := by
  unfold addStock totalUnits
  rw [if_neg (by omega : ¬ upp = 0)]
  have hdm := Int.ediv_add_emod (s.looseUnits + units) upp
  simp only []
  linear_combination hdm

theorem addStock_loose_bounds {upp : Int} (hupp : 0 < upp) (s : Stock) (packs units : Int) :
    (addStock upp s packs units).looseUnits < upp ∧
      0 ≤ (addStock upp s packs units).looseUnits := by
  unfold addStock
  rw [if_neg (by omega : ¬ upp = 0)]
  exact ⟨Int.emod_lt_of_pos _ hupp, Int.emod_nonneg _ (by omega)⟩

theorem sameMeta_refl (p : Product) : SameMeta p p :=
  ⟨rfl, rfl, rfl, rfl, rfl, rfl⟩

theorem evolves_refl {p : Product} (h : GoodProd p) : Evolves p p :=
  ⟨sameMeta_refl p, le_refl _, h.2.2, h.2.1⟩

theorem lookup_cons_pos {p : Product} {ps : List Product} {pid : Nat} (h : p.pid = pid) :
    lookup (p :: ps) pid = some p := by
  simp [lookup, List.find?, h]

theorem lookup_cons_neg {p : Product} {ps : List Product} {pid : Nat} (h : ¬ p.pid = pid) :
    lookup (p :: ps) pid = lookup ps pid := by
  have hb : (p.pid == pid) = false := by simp [h]
  simp [lookup, List.find?, hb]

theorem setStock_cons_pos {p : Product} {ps : List Product} {pid : Nat} {s : Stock}
    (h : p.pid = pid) : setStock (p :: ps) pid s = { p with stock := s } :: ps := by
  simp [setStock, h]

theorem setStock_cons_neg {p : Product} {ps : List Product} {pid : Nat} {s : Stock}
    (h : ¬ p.pid = pid) : setStock (p :: ps) pid s = p :: setStock ps pid s := by
  simp [setStock, h]

theorem lookup_rel {R : Product → Product → Prop} (hpid : ∀ a b, R a b → b.pid = a.pid)
    {l l1 : List Product} (F : List.Forall₂ R l l1) (pid : Nat) :
    (lookup l pid = none ∧ lookup l1 pid = none) ∨
      ∃ p q, lookup l pid = some p ∧ lookup l1 pid = some q ∧ R p q := by
  induction F with
  | nil => exact Or.inl ⟨rfl, rfl⟩
  | @cons a b l l1 hab F ih =>
    by_cases h : a.pid = pid
    · right
      exact ⟨a, b, lookup_cons_pos h, lookup_cons_pos ((hpid a b hab).trans h), hab⟩
    · have hb : ¬ b.pid = pid := fun hc => h ((hpid a b hab).symm.trans hc)
      rw [lookup_cons_neg h, lookup_cons_neg hb]
      exact ih

theorem forall₂_setStock {pid : Nat} {p0 q0 : Product} {s1 : Stock}
    (h : Evolves p0 { q0 with stock := s1 }) :
    ∀ {l l1 : List Product}, List.Forall₂ Evolves l l1 →
      lookup l1 pid = some q0 → lookup l pid = some p0 →
      List.Forall₂ Evolves l (setStock l1 pid s1) := by
  intro l l1 F
  induction F with
  | nil =>
    intro hq _
    simp [lookup, List.find?] at hq
  | @cons a b l l1 hab F ih =>
    intro hq hp
    by_cases hb : b.pid = pid
    · have ha : a.pid = pid := (hab.1.1).symm.trans hb
      rw [lookup_cons_pos hb] at hq
      rw [lookup_cons_pos ha] at hp
      injection hq with hq1
      injection hp with hp1
      subst hq1
      subst hp1
      rw [setStock_cons_pos hb]
      exact List.Forall₂.cons h F
    · have ha : ¬ a.pid = pid := fun hc => hb ((hab.1.1).trans hc)
      rw [lookup_cons_neg hb] at hq
      rw [lookup_cons_neg ha] at hp
      rw [setStock_cons_neg hb]
      exact List.Forall₂.cons hab (ih hq hp)

theorem forall₂_sameMeta_refl (l : List Product) : List.Forall₂ SameMeta l l :=
  List.forall₂_same.mpr (fun x _ => sameMeta_refl x)

theorem forall₂_sameMeta_setStock (l : List Product) (pid : Nat) (s1 : Stock) :
    List.Forall₂ SameMeta l (setStock l pid s1) := by
  induction l with
  | nil => exact List.Forall₂.nil
  | cons p ps ih =>
    by_cases h : p.pid = pid
    · rw [setStock_cons_pos h]
      exact List.Forall₂.cons ⟨rfl, rfl, rfl, rfl, rfl, rfl⟩ (forall₂_sameMeta_refl ps)
    · rw [setStock_cons_neg h]
      exact List.Forall₂.cons (sameMeta_refl p) ih

theorem overrideStep_eq_none {ps : List Product} {item : ItemReq}
    (hl : lookup ps item.productId = none) : overrideStep ps item = ps := by
  unfold overrideStep
  rw [hl]

theorem overrideStep_eq_ok {ps : List Product} {item : ItemReq} {p : Product} {s1 : Stock}
    (hl : lookup ps item.productId = some p)
    (hu : updateProductStock p.unitType p.unitsPerPack p.stock item.quantity = .ok s1) :
    overrideStep ps item = setStock ps p.pid s1 := by
  unfold overrideStep
  rw [hl]
  show (match updateProductStock p.unitType p.unitsPerPack p.stock item.quantity with
    | .ok s => setStock ps p.pid s
    | .error _ => ps) = setStock ps p.pid s1
  rw [hu]

theorem overrideStep_eq_err {ps : List Product} {item : ItemReq} {p : Product} {m : String}
    (hl : lookup ps item.productId = some p)
    (hu : updateProductStock p.unitType p.unitsPerPack p.stock item.quantity = .error m) :
    overrideStep ps item = ps := by
  unfold overrideStep
  rw [hl]
  show (match updateProductStock p.unitType p.unitsPerPack p.stock item.quantity with
    | .ok s => setStock ps p.pid s
    | .error _ => ps) = ps
  rw [hu]

theorem sameMeta_overrideStep (ps : List Product) (item : ItemReq) :
    List.Forall₂ SameMeta ps (overrideStep ps item) := by
  cases hl : lookup ps item.productId with
  | none =>
    rw [overrideStep_eq_none hl]
    exact forall₂_sameMeta_refl ps
  | some p =>
    cases hu : updateProductStock p.unitType p.unitsPerPack p.stock item.quantity with
    | ok s =>
      rw [overrideStep_eq_ok hl hu]
      exact forall₂_sameMeta_setStock ps p.pid s
    | error m =>
      rw [overrideStep_eq_err hl hu]
      exact forall₂_sameMeta_refl ps

theorem names_forall₂ {R : Product → Product → Prop}
    (hname : ∀ a b, R a b → b.name = a.name) {l l1 : List Product}
    (F : List.Forall₂ R l l1) :
    l1.map (fun p => p.name) = l.map (fun p => p.name) := by
  induction F with
  | nil => rfl
  | @cons a b l l1 hab F ih => simp [hname a b hab, ih]

theorem names_overrideStep (ps : List Product) (item : ItemReq) :
    (overrideStep ps item).map (fun p => p.name) = ps.map (fun p => p.name) :=
  names_forall₂ (fun _ _ h => h.2.1) (sameMeta_overrideStep ps item)

theorem itemsTotal_congr {l l1 : List Product} (F : List.Forall₂ SameMeta l l1)
    (items : List ItemReq) : itemsTotal l1 items = itemsTotal l items := by
  unfold itemsTotal
  congr 1
  apply List.map_congr_left
  intro item _
  rcases lookup_rel (fun a b h => h.1) F item.productId with ⟨h1, h2⟩ | ⟨p, q2, h1, h2, hR⟩
  · rw [h1, h2]
  · rw [h1, h2]
    show item.quantity * q2.pricePerUnit = item.quantity * p.pricePerUnit
    rw [hR.2.2.2.2.2]

theorem overrideWarnings_facts : ∀ (items : List ItemReq) (ps : List Product)
    (w : StockWarning), w ∈ overrideWarnings ps items →
    w.deficit = w.requested - w.available ∧ 0 < w.deficit ∧
      w.product ∈ ps.map (fun p => p.name) := by
  intro items
  induction items with
  | nil =>
    intro ps w hw
    simp [overrideWarnings] at hw
  | cons item rest ih =>
    intro ps w hw
    unfold overrideWarnings at hw
    rw [List.mem_append] at hw
    rcases hw with hw | hw
    · cases hl : lookup ps item.productId with
      | none => rw [hl] at hw; simp at hw
      | some p =>
        rw [hl] at hw
        dsimp only at hw
        by_cases hc : totalUnits p.unitsPerPack p.stock < item.quantity
        · rw [if_pos hc] at hw
          rw [List.mem_singleton] at hw
          subst hw
          refine ⟨rfl, by simp only []; omega, ?_⟩
          have hmem : p ∈ ps := List.mem_of_find?_eq_some hl
          exact List.mem_map.mpr ⟨p, hmem, rfl⟩
        · rw [if_neg hc] at hw
          simp at hw
    · have h2 := ih (overrideStep ps item) w hw
      exact ⟨h2.1, h2.2.1, by rw [← names_overrideStep ps item]; exact h2.2.2⟩

theorem createRecon_cons (ps : List Product) (w : StockWarning) (ws : List StockWarning)
    {pf : Product} (hd : 0 < w.deficit)
    (hpf : ps.find? (fun p1 => p1.name == w.product) = some pf) :
    createReconciliationRecords ps (w :: ws) true =
      (⟨pf.pid, w.product, w.requested, w.available, w.deficit, "pending",
        none, none, false⟩ : ReconCase) :: createReconciliationRecords ps ws true := by
  unfold createReconciliationRecords
  rw [List.filter_cons_of_pos (by simpa using hd), List.filterMap_cons]
  rw [hpf]
  simp [hd]

theorem createRecon_forall₂ (ps : List Product) :
    ∀ (ws : List StockWarning),
    (∀ w ∈ ws, 0 < w.deficit ∧ w.product ∈ ps.map (fun p => p.name)) →
    List.Forall₂ ReconMatches ws (createReconciliationRecords ps ws true) := by
  intro ws
  induction ws with
  | nil =>
    intro _
    simp [createReconciliationRecords]
  | cons w ws ih =>
    intro hws
    obtain ⟨hd, hmem⟩ := hws w (List.mem_cons_self w ws)
    obtain ⟨p, hp, hpname⟩ := List.mem_map.mp hmem
    have hfind : (ps.find? (fun p1 => p1.name == w.product)).isSome :=
      List.find?_isSome.mpr ⟨p, hp, by simp [hpname]⟩
    obtain ⟨pf, hpf⟩ := Option.isSome_iff_exists.mp hfind
    rw [createRecon_cons ps w ws hd hpf]
    exact List.Forall₂.cons ⟨rfl, rfl, rfl, rfl, rfl⟩
      (ih (fun w1 hw1 => hws w1 (List.mem_cons_of_mem w hw1)))

theorem saleLogs_some : ∀ (items : List ItemReq) (ps : List Product),
    (∀ it ∈ items, ∃ p, lookup ps it.productId = some p) →
    ∃ logs, saleLogs ps items = some logs := by
  intro items
  induction items with
  | nil => exact fun ps _ => ⟨[], rfl⟩
  | cons item rest ih =>
    intro ps h
    obtain ⟨p, hp⟩ := h item (List.mem_cons_self item rest)
    obtain ⟨logs, hlogs⟩ := ih ps (fun it hit => h it (List.mem_cons_of_mem item hit))
    refine ⟨⟨"sale", p.pid, item.quantity, none⟩ :: logs, ?_⟩
    unfold saleLogs
    rw [hp, hlogs]
    rfl

theorem lookup_pid {ps : List Product} {pid : Nat} {p : Product}
    (h : lookup ps pid = some p) : p.pid = pid := by
  unfold lookup at h
  have := List.find?_some h
  simpa using this

theorem lookup_mem {ps : List Product} {pid : Nat} {p : Product}
    (h : lookup ps pid = some p) : p ∈ ps := by
  unfold lookup at h
  exact List.mem_of_find?_eq_some h

theorem evolves_update {p0 p : Product} (hg : GoodProd p0) (hE : Evolves p0 p)
    {q : Int} (hq : 0 ≤ q) {s1 : Stock}
    (hok : updateProductStock p.unitType p.unitsPerPack p.stock q = .ok s1) :
    Evolves p0 { p with stock := s1 } := by
  have hupp : 0 < p.unitsPerPack := by
    have h1 := hE.1.2.2.2.2.1
    have h2 := hg.1
    omega
  have hfacts := update_ok_facts hupp hE.2.2.2 hE.2.2.1 hq hok
  exact ⟨hE.1, le_trans hfacts.1 hE.2.1, hfacts.2.1, hfacts.2.2⟩

theorem processLine_strict {tx : TxState} {item : ItemReq} {p : Product}
    (hl : lookup tx.products item.productId = some p) (hact : p.status = "active") :
    (totalUnits p.unitsPerPack p.stock < item.quantity →
      processLine false tx item = .error (.insufficientStock p.name
        (totalUnits p.unitsPerPack p.stock) item.quantity)) ∧
    (∀ s1, updateProductStock p.unitType p.unitsPerPack p.stock item.quantity = .ok s1 →
      ¬ totalUnits p.unitsPerPack p.stock < item.quantity →
      processLine false tx item = .ok
        { tx with
          products := setStock tx.products p.pid s1
          totalAmount := tx.totalAmount + item.quantity * p.pricePerUnit
          saleItems := tx.saleItems ++
            [⟨p.pid, p.name, item.quantity, p.pricePerUnit,
              item.quantity * p.pricePerUnit, p.unitType⟩]
          trace := tx.trace ++ [.stockWrite p.pid s1] }) ∧
    (∀ m, updateProductStock p.unitType p.unitsPerPack p.stock item.quantity = .error m →
      ¬ totalUnits p.unitsPerPack p.stock < item.quantity →
      processLine false tx item = .error .serverError) := by
  refine ⟨?_, ?_, ?_⟩
  · intro hq
    unfold processLine
    rw [hl]
    dsimp only
    rw [if_neg (by simp [hact])]
    simp only [Bool.not_false, if_true]
    rw [if_pos hq]
  · intro s1 hok hq
    unfold processLine
    rw [hl]
    dsimp only
    rw [if_neg (by simp [hact])]
    simp only [Bool.not_false, if_true]
    rw [if_neg hq, hok]
  · intro m hm hq
    unfold processLine
    rw [hl]
    dsimp only
    rw [if_neg (by simp [hact])]
    simp only [Bool.not_false, if_true]
    rw [if_neg hq, hm]

theorem processLine_override {tx : TxState} {item : ItemReq} {p : Product}
    (hl : lookup tx.products item.productId = some p) (hact : p.status = "active")
    (hupp : 0 < p.unitsPerPack) (hfp : 0 ≤ p.stock.fullPacks) :
    ∃ tr, processLine true tx item = .ok
      { tx with
        products := overrideStep tx.products item
        totalAmount := tx.totalAmount + item.quantity * p.pricePerUnit
        saleItems := tx.saleItems ++ [⟨p.pid, p.name, item.quantity, p.pricePerUnit,
          item.quantity * p.pricePerUnit, p.unitType⟩]
        stockWarnings := tx.stockWarnings ++
          (if totalUnits p.unitsPerPack p.stock < item.quantity then
            [⟨p.name, item.quantity, totalUnits p.unitsPerPack p.stock,
              item.quantity - totalUnits p.unitsPerPack p.stock⟩]
          else [])
        trace := tx.trace ++ tr } ∧
      (∀ e ∈ tr, ∃ pid s, e = Ev.stockWrite pid s) := by
  cases hu : updateProductStock p.unitType p.unitsPerPack p.stock item.quantity with
  | ok s1 =>
    refine ⟨[.stockWrite p.pid s1], ?_, ?_⟩
    · unfold processLine
      rw [hl]
      dsimp only
      rw [if_neg (by simp [hact])]
      simp only [Bool.not_true, Bool.false_eq_true, if_false]
      rw [hu, overrideStep_eq_ok hl hu]
      dsimp only
      split_ifs <;> simp
    · intro e he
      rw [List.mem_singleton] at he
      exact ⟨p.pid, s1, he⟩
  | error msg =>
    by_cases hshort : totalUnits p.unitsPerPack p.stock < item.quantity
    · refine ⟨[], ?_, by intro e he; simp at he⟩
      unfold processLine
      rw [hl]
      dsimp only
      rw [if_neg (by simp [hact])]
      simp only [Bool.not_true, Bool.false_eq_true, if_false]
      rw [hu, overrideStep_eq_err hl hu]
      dsimp only
      simp [hshort]
    · have hmsg := update_err_no_shortage hupp hfp hu hshort
      have hjs : (jsIncludes msg "not enough" || jsIncludes msg "insufficient") = false := by
        rcases hmsg with h1 | h1 <;> subst h1 <;> decide
      refine ⟨[], ?_, by intro e he; simp at he⟩
      unfold processLine
      rw [hl]
      dsimp only
      rw [if_neg (by simp [hact])]
      simp only [Bool.not_true, Bool.false_eq_true, if_false]
      rw [hu, overrideStep_eq_err hl hu]
      dsimp only
      simp [hshort, hjs]

theorem processLine_trace {ig : Bool} {tx tx1 : TxState} {item : ItemReq}
    (h : processLine ig tx item = .ok tx1) :
    ∀ e ∈ tx1.trace, e ∈ tx.trace ∨ ∃ pid s, e = Ev.stockWrite pid s := by
  simp only [processLine] at h
  repeat' split at h
  all_goals try exact Except.noConfusion h
  all_goals injection h with h1
  all_goals subst h1
  all_goals intro e he
  all_goals simp only [List.mem_append, List.mem_singleton] at he
  all_goals try rcases he with he | he
  all_goals try exact Or.inl he
  all_goals try exact Or.inr ⟨_, _, he⟩

theorem processItems_trace {ig : Bool} : ∀ {items : List ItemReq} {tx tx1 : TxState},
    processItems ig tx items = .ok tx1 →
    ∀ e ∈ tx1.trace, e ∈ tx.trace ∨ ∃ pid s, e = Ev.stockWrite pid s := by
  intro items
  induction items with
  | nil =>
    intro tx tx1 h e he
    injection h with h1
    subst h1
    exact Or.inl he
  | cons item rest ih =>
    intro tx tx1 h e he
    unfold processItems at h
    cases hline : processLine ig tx item with
    | error o => rw [hline] at h; cases h
    | ok tx2 =>
      rw [hline] at h
      rcases ih h e he with h2 | h2
      · exact processLine_trace hline e h2
      · exact Or.inr h2

theorem dropWhile_no_commit {tr : List Ev} (h : Ev.commitTx ∉ tr) :
    tr.dropWhile (fun e => !(e == Ev.commitTx)) = [] := by
  induction tr with
  | nil => rfl
  | cons a l ih =>
    have ha : ¬ a = Ev.commitTx := fun hc => h (by simp [hc])
    have hpa : (!(a == Ev.commitTx)) = true := by simp [ha]
    rw [List.dropWhile_cons, if_pos hpa]
    exact ih (fun hc => h (List.mem_cons_of_mem a hc))

theorem postCommit_nil {tr : List Ev} (h : Ev.commitTx ∉ tr) : postCommit tr = [] := by
  unfold postCommit
  rw [dropWhile_no_commit h]
  rfl

theorem postCommit_append_commit {tr : List Ev} (h : Ev.commitTx ∉ tr) :
    postCommit (tr ++ [Ev.commitTx]) = [] := by
  unfold postCommit
  have hstep : (tr ++ [Ev.commitTx]).dropWhile (fun e => !(e == Ev.commitTx))
      = [Ev.commitTx] := by
    induction tr with
    | nil => rfl
    | cons a l ih =>
      have ha : ¬ a = Ev.commitTx := fun hc => h (by simp [hc])
      have hpa : (!(a == Ev.commitTx)) = true := by simp [ha]
      rw [List.cons_append, List.dropWhile_cons, if_pos hpa]
      exact ih (fun hc => h (List.mem_cons_of_mem a hc))
  rw [hstep]
  rfl

theorem itemsTotal_cons (ps : List Product) (item : ItemReq) (rest : List ItemReq) :
    itemsTotal ps (item :: rest) =
      (match lookup ps item.productId with
       | some p => item.quantity * p.pricePerUnit
       | none => 0) + itemsTotal ps rest := by
  simp [itemsTotal]

theorem overrideWarnings_cons (ps : List Product) (item : ItemReq) (rest : List ItemReq) :
    overrideWarnings ps (item :: rest) =
      (match lookup ps item.productId with
       | none => []
       | some p =>
         if totalUnits p.unitsPerPack p.stock < item.quantity then
           [⟨p.name, item.quantity, totalUnits p.unitsPerPack p.stock,
             item.quantity - totalUnits p.unitsPerPack p.stock⟩]
         else []) ++ overrideWarnings (overrideStep ps item) rest := rfl

theorem processItems_override {ps0 : List Product} (hgood : ∀ p ∈ ps0, GoodProd p) :
    ∀ (items : List ItemReq) (tx : TxState),
    List.Forall₂ Evolves ps0 tx.products →
    (∀ it ∈ items, 0 ≤ it.quantity ∧
      ∃ p, lookup ps0 it.productId = some p ∧ p.status = "active") →
    ∃ tx1, processItems true tx items = .ok tx1 ∧
      List.Forall₂ Evolves ps0 tx1.products ∧
      tx1.totalAmount = tx.totalAmount + itemsTotal tx.products items ∧
      tx1.stockWarnings = tx.stockWarnings ++ overrideWarnings tx.products items := by
  intro items
  induction items with
  | nil =>
    intro tx F _
    exact ⟨tx, rfl, F, by simp [itemsTotal], by simp [overrideWarnings]⟩
  | cons item rest ih =>
    intro tx F hok
    obtain ⟨hq, p0, hp0, hact0⟩ := hok item (List.mem_cons_self item rest)
    rcases lookup_rel (fun a b h => h.1.1) F item.productId with ⟨hn, _⟩ |
      ⟨pa, pb, hpa, hpb, hE⟩
    · rw [hp0] at hn; cases hn
    · rw [hp0] at hpa
      injection hpa with hpa1
      subst hpa1
      have hact : pb.status = "active" := by rw [hE.1.2.2.1]; exact hact0
      have hg0 : GoodProd p0 := hgood p0 (lookup_mem hp0)
      have hupp : 0 < pb.unitsPerPack := by
        have h1 := hE.1.2.2.2.2.1
        have h2 := hg0.1
        omega
      obtain ⟨tr, hline, htr⟩ := processLine_override hpb hact hupp hE.2.2.2
      have F2 : List.Forall₂ Evolves ps0 (overrideStep tx.products item) := by
        cases hu : updateProductStock pb.unitType pb.unitsPerPack pb.stock item.quantity with
        | ok s1 =>
          rw [overrideStep_eq_ok hpb hu]
          have hE2 := evolves_update hg0 hE hq hu
          have hpbpid : pb.pid = item.productId := lookup_pid hpb
          exact forall₂_setStock hE2 F (by rw [hpbpid]; exact hpb) (by rw [hpbpid]; exact hp0)
        | error m =>
          rw [overrideStep_eq_err hpb hu]
          exact F
      obtain ⟨tx1, hrest, F1, htot, hwarn⟩ :=
        ih { tx with
            products := overrideStep tx.products item
            totalAmount := tx.totalAmount + item.quantity * pb.pricePerUnit
            saleItems := tx.saleItems ++ [⟨pb.pid, pb.name, item.quantity, pb.pricePerUnit,
              item.quantity * pb.pricePerUnit, pb.unitType⟩]
            stockWarnings := tx.stockWarnings ++
              (if totalUnits pb.unitsPerPack pb.stock < item.quantity then
                [⟨pb.name, item.quantity, totalUnits pb.unitsPerPack pb.stock,
                  item.quantity - totalUnits pb.unitsPerPack pb.stock⟩]
              else [])
            trace := tx.trace ++ tr }
          F2 (fun it hit => hok it (List.mem_cons_of_mem item hit))
      dsimp only at htot hwarn
      refine ⟨tx1, ?_, F1, ?_, ?_⟩
      · unfold processItems
        rw [hline]
        exact hrest
      · rw [htot]
        rw [itemsTotal_cons, hpb]
        rw [itemsTotal_congr (sameMeta_overrideStep tx.products item) rest]
        ring
      · rw [hwarn]
        rw [overrideWarnings_cons, hpb]
        rw [List.append_assoc]

theorem processItems_strict {ps0 : List Product} (hgood : ∀ p ∈ ps0, GoodProd p) :
    ∀ (items : List ItemReq) (tx : TxState),
    List.Forall₂ Evolves ps0 tx.products →
    (∀ it ∈ items, 0 ≤ it.quantity ∧
      ∃ p, lookup ps0 it.productId = some p ∧ p.status = "active") →
    (∀ it ∈ items, ∀ p, lookup ps0 it.productId = some p →
      isSubdividable p.unitType = true) →
    (∃ it ∈ items, ∃ p, lookup ps0 it.productId = some p ∧
      totalUnits p.unitsPerPack p.stock < it.quantity) →
    ∃ n a r, processItems false tx items = .error (.insufficientStock n a r) ∧ a < r := by
  intro items
  induction items with
  | nil =>
    intro tx _ _ _ hov
    obtain ⟨it, hit, _⟩ := hov
    exact absurd hit (List.not_mem_nil it)
  | cons item rest ih =>
    intro tx F hok hsubs hov
    obtain ⟨hq, p0, hp0, hact0⟩ := hok item (List.mem_cons_self item rest)
    rcases lookup_rel (fun a b h => h.1.1) F item.productId with ⟨hn, _⟩ |
      ⟨pa, pb, hpa, hpb, hE⟩
    · rw [hp0] at hn; cases hn
    · rw [hp0] at hpa
      injection hpa with hpa1
      subst hpa1
      have hact : pb.status = "active" := by rw [hE.1.2.2.1]; exact hact0
      have hg0 : GoodProd p0 := hgood p0 (lookup_mem hp0)
      have hupp : 0 < pb.unitsPerPack := by
        have h1 := hE.1.2.2.2.2.1
        have h2 := hg0.1
        omega
      have hsubb : isSubdividable pb.unitType = true := by
        rw [hE.1.2.2.2.1]
        exact hsubs item (List.mem_cons_self item rest) p0 hp0
      by_cases hshort : totalUnits pb.unitsPerPack pb.stock < item.quantity
      · refine ⟨pb.name, totalUnits pb.unitsPerPack pb.stock, item.quantity, ?_, hshort⟩
        unfold processItems
        rw [(processLine_strict hpb hact).1 hshort]
      · have hupd : ∃ s1, updateProductStock pb.unitType pb.unitsPerPack pb.stock
            item.quantity = .ok s1 := by
          apply stockErr_false.mp
          cases hb : stockErr (updateProductStock pb.unitType pb.unitsPerPack pb.stock
              item.quantity) with
          | false => rfl
          | true =>
            exact absurd ((update_err_iff_sub hupp hE.2.2.2 item.quantity hsubb).mp hb)
              hshort
        obtain ⟨s1, hs1⟩ := hupd
        have hline := (processLine_strict hpb hact).2.1 s1 hs1 hshort
        have hE2 := evolves_update hg0 hE hq hs1
        have hpbpid : pb.pid = item.productId := lookup_pid hpb
        have F2 : List.Forall₂ Evolves ps0 (setStock tx.products pb.pid s1) :=
          forall₂_setStock hE2 F (by rw [hpbpid]; exact hpb) (by rw [hpbpid]; exact hp0)
        have hov2 : ∃ it ∈ rest, ∃ p, lookup ps0 it.productId = some p ∧
            totalUnits p.unitsPerPack p.stock < it.quantity := by
          obtain ⟨it, hit, pw, hpw, hw⟩ := hov
          rcases List.mem_cons.mp hit with he | he
          · subst he
            rw [hp0] at hpw
            injection hpw with h3
            subst h3
            exact absurd hw (not_lt.mpr (le_trans (not_lt.mp hshort) hE.2.1))
          · exact ⟨it, he, pw, hpw, hw⟩
        unfold processItems
        rw [hline]
        exact ih { tx with
            products := setStock tx.products pb.pid s1
            totalAmount := tx.totalAmount + item.quantity * pb.pricePerUnit
            saleItems := tx.saleItems ++ [⟨pb.pid, pb.name, item.quantity, pb.pricePerUnit,
              item.quantity * pb.pricePerUnit, pb.unitType⟩]
            trace := tx.trace ++ [.stockWrite pb.pid s1] }
          F2 (fun it hit => hok it (List.mem_cons_of_mem item hit))
          (fun it hit => hsubs it (List.mem_cons_of_mem item hit)) hov2

theorem processItems_strict_aborts {ps0 : List Product} (hgood : ∀ p ∈ ps0, GoodProd p) :
    ∀ (items : List ItemReq) (tx : TxState),
    List.Forall₂ Evolves ps0 tx.products →
    (∀ it ∈ items, 0 ≤ it.quantity ∧
      ∃ p, lookup ps0 it.productId = some p ∧ p.status = "active") →
    (∃ it ∈ items, ∃ p, lookup ps0 it.productId = some p ∧
      totalUnits p.unitsPerPack p.stock < it.quantity) →
    (∃ n a r, processItems false tx items = .error (.insufficientStock n a r) ∧ a < r) ∨
      processItems false tx items = .error .serverError := by
  intro items
  induction items with
  | nil =>
    intro tx _ _ hov
    obtain ⟨it, hit, _⟩ := hov
    exact absurd hit (List.not_mem_nil it)
  | cons item rest ih =>
    intro tx F hok hov
    obtain ⟨hq, p0, hp0, hact0⟩ := hok item (List.mem_cons_self item rest)
    rcases lookup_rel (fun a b h => h.1.1) F item.productId with ⟨hn, _⟩ |
      ⟨pa, pb, hpa, hpb, hE⟩
    · rw [hp0] at hn; cases hn
    · rw [hp0] at hpa
      injection hpa with hpa1
      subst hpa1
      have hact : pb.status = "active" := by rw [hE.1.2.2.1]; exact hact0
      have hg0 : GoodProd p0 := hgood p0 (lookup_mem hp0)
      by_cases hshort : totalUnits pb.unitsPerPack pb.stock < item.quantity
      · refine Or.inl ⟨pb.name, totalUnits pb.unitsPerPack pb.stock, item.quantity, ?_,
          hshort⟩
        unfold processItems
        rw [(processLine_strict hpb hact).1 hshort]
      · cases hu : updateProductStock pb.unitType pb.unitsPerPack pb.stock
            item.quantity with
        | error m =>
          refine Or.inr ?_
          unfold processItems
          rw [(processLine_strict hpb hact).2.2 m hu hshort]
        | ok s1 =>
          have hline := (processLine_strict hpb hact).2.1 s1 hu hshort
          have hE2 := evolves_update hg0 hE hq hu
          have hpbpid : pb.pid = item.productId := lookup_pid hpb
          have F2 : List.Forall₂ Evolves ps0 (setStock tx.products pb.pid s1) :=
            forall₂_setStock hE2 F (by rw [hpbpid]; exact hpb) (by rw [hpbpid]; exact hp0)
          have hov2 : ∃ it ∈ rest, ∃ p, lookup ps0 it.productId = some p ∧
              totalUnits p.unitsPerPack p.stock < it.quantity := by
            obtain ⟨it, hit, pw, hpw, hw⟩ := hov
            rcases List.mem_cons.mp hit with he | he
            · subst he
              rw [hp0] at hpw
              injection hpw with h3
              subst h3
              exact absurd hw (not_lt.mpr (le_trans (not_lt.mp hshort) hE.2.1))
            · exact ⟨it, he, pw, hpw, hw⟩
          unfold processItems
          rw [hline]
          exact ih { tx with
              products := setStock tx.products pb.pid s1
              totalAmount := tx.totalAmount + item.quantity * pb.pricePerUnit
              saleItems := tx.saleItems ++ [⟨pb.pid, pb.name, item.quantity, pb.pricePerUnit,
                item.quantity * pb.pricePerUnit, pb.unitType⟩]
              trace := tx.trace ++ [.stockWrite pb.pid s1] }
            F2 (fun it hit => hok it (List.mem_cons_of_mem item hit)) hov2

/-- C1 counterexample: whole-unit path, `unitsPerPack = 2`, `fullPacks = 2`,
`looseUnits = 0`, decrement of 1 unit with sufficient stock (`totalUnits = 4`):
the code subtracts the unit remainder from `fullPacks` directly, leaving
`totalUnits = 2` instead of `4 - 1 = 3`, so conservation fails on the
whole-unit path for `unitsPerPack > 1`. -/
theorem claim_C1_counterexample :
    (1 : Int) ≤ totalUnits 2 ⟨2, 0⟩ ∧
    handleWholeUnitProduct "bottles" 2 ⟨2, 0⟩ 1 = .ok ⟨1, 0⟩ ∧
    totalUnits 2 ⟨1, 0⟩ ≠ totalUnits 2 ⟨2, 0⟩ - 1 := by decide

/-- C1 (amended): for every valid stock record and every decrement with
sufficient stock (`quantity ≤ totalUnits`), the divisible path always
satisfies `totalUnits_after = totalUnits_before - quantity`; the whole-unit
path splits: when the quantity is covered by `fullPacks + looseUnits` the
decrement persists but satisfies the equation exactly when `unitsPerPack = 1`
or the quantity is covered by loose units — for `unitsPerPack > 1` it
subtracts the unit remainder from `fullPacks` directly, losing
`(quantity - looseUnits)·(unitsPerPack - 1)` extra units — and when
`fullPacks + looseUnits < quantity ≤ totalUnits` the save-time schema
validator on `stock.fullPacks` rejects the negative pack count with a
ValidationError and nothing persists at all. -/
theorem claim_C1 (utl : String) (upp fp lu q : Int) (hupp : 1 ≤ upp) (hfp : 0 ≤ fp)
    (hlu : 0 ≤ lu) (hq : 0 ≤ q) (hsuff : q ≤ totalUnits upp ⟨fp, lu⟩) :
    (∃ s1, handleSubdividableProduct utl upp ⟨fp, lu⟩ q = .ok s1 ∧
      totalUnits upp s1 = totalUnits upp ⟨fp, lu⟩ - q) ∧
    (q ≤ fp + lu →
      ∃ s1, handleWholeUnitProduct utl upp ⟨fp, lu⟩ q = .ok s1 ∧
        (totalUnits upp s1 = totalUnits upp ⟨fp, lu⟩ - q ↔ upp = 1 ∨ q ≤ lu)) ∧
    (fp + lu < q →
      handleWholeUnitProduct utl upp ⟨fp, lu⟩ q =
        .error "Product validation failed: stock.fullPacks: Cannot have negative packs") := by
  have hupp0 : (0 : Int) < upp := by omega
  have hns : ¬ totalUnits upp ⟨fp, lu⟩ < q := not_lt.mpr hsuff
  refine ⟨?_, ?_, ?_⟩
  · have herr := @sub_err_iff utl upp hupp0 ⟨fp, lu⟩ hfp q
    have hfalse : stockErr (handleSubdividableProduct utl upp ⟨fp, lu⟩ q) = false := by
      cases hb : stockErr (handleSubdividableProduct utl upp ⟨fp, lu⟩ q) with
      | false => rfl
      | true => exact absurd (herr.mp hb) hns
    obtain ⟨s1, hok⟩ := stockErr_false.mp hfalse
    exact ⟨s1, hok, sub_ok_total hok⟩
  · intro hcov
    obtain ⟨s1, hok, _, _, hiff⟩ := whole_ok_iff utl hupp0 ⟨fp, lu⟩ hq hfp hlu hns hcov
    exact ⟨s1, hok, hiff⟩
  · intro hcov
    exact whole_valerr utl upp ⟨fp, lu⟩ q hns hfp hcov

/-- Witness for C1 at `unitsPerPack = 10`, `fullPacks = 2`, `looseUnits = 3`,
`quantity = 5` (covered: `5 ≤ 2 + 3`). -/
theorem claim_C1_witness :
    (1 : Int) ≤ 10 ∧ (0 : Int) ≤ 2 ∧ (0 : Int) ≤ 3 ∧ (0 : Int) ≤ 5 ∧
    (5 : Int) ≤ totalUnits 10 ⟨2, 3⟩ ∧
    ((∃ s1, handleSubdividableProduct "tablets" 10 ⟨2, 3⟩ 5 = .ok s1 ∧
        totalUnits 10 s1 = totalUnits 10 ⟨2, 3⟩ - 5) ∧
      ((5 : Int) ≤ 2 + 3 →
        ∃ s1, handleWholeUnitProduct "tablets" 10 ⟨2, 3⟩ 5 = .ok s1 ∧
          (totalUnits 10 s1 = totalUnits 10 ⟨2, 3⟩ - 5 ↔ (10 : Int) = 1 ∨ (5 : Int) ≤ 3)) ∧
      ((2 : Int) + 3 < 5 →
        handleWholeUnitProduct "tablets" 10 ⟨2, 3⟩ 5 =
          .error "Product validation failed: stock.fullPacks: Cannot have negative packs")) :=
  ⟨by norm_num, by norm_num, by norm_num, by norm_num, by decide,
    claim_C1 "tablets" 10 2 3 5 (by norm_num) (by norm_num) (by norm_num) (by norm_num)
      (by decide)⟩

/-- C6: the divisible decrement consumes loose units first; when a remainder
persists it breaks `ceil(remainder / unitsPerPack)` packs, failing with the
`InsufficientStock` error when that exceeds `fullPacks`, and the broken packs'
units minus the remainder become the new loose units; in particular for
`unitsPerPack = 10`, `fullPacks = 2`, `looseUnits = 3`, selling 5 yields
`fullPacks = 1`, `looseUnits = 8`, `totalUnits = 18`. -/
theorem claim_C6 (utl : String) (upp fp lu q : Int) (hupp : 1 ≤ upp) (hfp : 0 ≤ fp)
    (hlu : 0 ≤ lu) (hq : 0 ≤ q) :
    (q ≤ lu → handleSubdividableProduct utl upp ⟨fp, lu⟩ q = .ok ⟨fp, lu - q⟩) ∧
    (lu < q → fp < ceilDiv (q - lu) upp →
      handleSubdividableProduct utl upp ⟨fp, lu⟩ q =
        .error ("Not enough " ++ utl ++ " available")) ∧
    (lu < q → ceilDiv (q - lu) upp ≤ fp →
      handleSubdividableProduct utl upp ⟨fp, lu⟩ q =
        .ok ⟨fp - ceilDiv (q - lu) upp, ceilDiv (q - lu) upp * upp - (q - lu)⟩) ∧
    handleSubdividableProduct "tablets" 10 ⟨2, 3⟩ 5 = .ok ⟨1, 8⟩ ∧
    totalUnits 10 ⟨1, 8⟩ = 18 := by
  refine ⟨?_, ?_, ?_, by decide, by decide⟩
  · exact fun h => sub_ok_loose utl upp ⟨fp, lu⟩ q h
  · exact fun h1 h2 => sub_err utl upp ⟨fp, lu⟩ q h1 h2
  · exact fun h1 h2 => sub_ok_break utl upp ⟨fp, lu⟩ q h1 h2

/-- Witness for C6 at the spec's example numbers. -/
theorem claim_C6_witness :
    (((5 : Int) ≤ 3 → handleSubdividableProduct "tablets" 10 ⟨2, 3⟩ 5 = .ok ⟨2, 3 - 5⟩) ∧
      ((3 : Int) < 5 → (2 : Int) < ceilDiv (5 - 3) 10 →
        handleSubdividableProduct "tablets" 10 ⟨2, 3⟩ 5 =
          .error ("Not enough " ++ "tablets" ++ " available")) ∧
      ((3 : Int) < 5 → ceilDiv (5 - 3) 10 ≤ 2 →
        handleSubdividableProduct "tablets" 10 ⟨2, 3⟩ 5 =
          .ok ⟨2 - ceilDiv (5 - 3) 10, ceilDiv (5 - 3) 10 * 10 - (5 - 3)⟩) ∧
      handleSubdividableProduct "tablets" 10 ⟨2, 3⟩ 5 = .ok ⟨1, 8⟩ ∧
      totalUnits 10 ⟨1, 8⟩ = 18) :=
  claim_C6 "tablets" 10 2 3 5 (by norm_num) (by norm_num) (by norm_num) (by norm_num)

/-- C7: a decrement fails with the `InsufficientStock` error — the thrown
`Not enough ...` message, as distinguished from a save-time ValidationError —
exactly when `quantity > totalUnits`, on both the whole-unit path (up-front
check) and the divisible path, where it is moreover the only error the
handler can throw and its pack-breaking failure condition
`ceil((quantity - looseUnits)/unitsPerPack) > fullPacks` is equivalent to
`quantity > totalUnits`. -/
theorem claim_C7 (utl : String) (upp fp lu q : Int) (hupp : 1 ≤ upp) (hfp : 0 ≤ fp)
    (hlu : 0 ≤ lu) (hq : 0 ≤ q) :
    (isStockShortageErr (handleWholeUnitProduct utl upp ⟨fp, lu⟩ q) = true ↔
      totalUnits upp ⟨fp, lu⟩ < q) ∧
    (isStockShortageErr (handleSubdividableProduct utl upp ⟨fp, lu⟩ q) = true ↔
      totalUnits upp ⟨fp, lu⟩ < q) ∧
    (stockErr (handleSubdividableProduct utl upp ⟨fp, lu⟩ q) = true ↔
      totalUnits upp ⟨fp, lu⟩ < q) ∧
    (fp < ceilDiv (q - lu) upp ↔ totalUnits upp ⟨fp, lu⟩ < q) := by
  have hupp0 : (0 : Int) < upp := by omega
  refine ⟨whole_shortage_iff utl upp ⟨fp, lu⟩ q, sub_shortage_iff utl hupp0 hfp q,
    sub_err_iff utl hupp0 hfp q, ?_⟩
  rw [lt_ceilDiv_iff hupp0]
  unfold totalUnits
  dsimp only
  constructor <;> intro h <;> linarith

/-- Witness for C7 at `unitsPerPack = 10`, stock `⟨2, 3⟩`, `quantity = 25`. -/
theorem claim_C7_witness :
    ((isStockShortageErr (handleWholeUnitProduct "tablets" 10 ⟨2, 3⟩ 25) = true ↔
        totalUnits 10 ⟨2, 3⟩ < 25) ∧
      (isStockShortageErr (handleSubdividableProduct "tablets" 10 ⟨2, 3⟩ 25) = true ↔
        totalUnits 10 ⟨2, 3⟩ < 25) ∧
      (stockErr (handleSubdividableProduct "tablets" 10 ⟨2, 3⟩ 25) = true ↔
        totalUnits 10 ⟨2, 3⟩ < 25) ∧
      ((2 : Int) < ceilDiv (25 - 3) 10 ↔ totalUnits 10 ⟨2, 3⟩ < 25)) :=
  claim_C7 "tablets" 10 2 3 25 (by norm_num) (by norm_num) (by norm_num) (by norm_num)

/-- C9: after any restock via `addStock(packs, units)` with nonnegative
arguments, the normalization `looseUnits %= unitsPerPack` leaves
`looseUnits < unitsPerPack`, even when the invariant did not hold before. -/
theorem claim_C9 (upp : Int) (s : Stock) (packs units : Int) (hupp : 1 ≤ upp)
    (hlu : 0 ≤ s.looseUnits) (hpacks : 0 ≤ packs) (hunits : 0 ≤ units) :
    (addStock upp s packs units).looseUnits < upp :=
  (addStock_loose_bounds (by omega) s packs units).1

/-- Witness for C9 at `unitsPerPack = 10`, `looseUnits = 25 ≥ 10`. -/
theorem claim_C9_witness : (addStock 10 ⟨0, 25⟩ 3 4).looseUnits < 10 :=
  claim_C9 10 ⟨0, 25⟩ 3 4 (by norm_num) (by norm_num) (by norm_num) (by norm_num)

/-- C8: `adjustStockFromReconciliation` on a pending case with deficit `d` and
`adjustmentQuantity = d` adds exactly `d` to the product's `totalUnits`,
writes one `stock_adjust` log entry back-referencing the case, and moves the
case to the terminal `adjusted` state. -/
theorem claim_C8 (db : ReconDB) (id : Nat) (c : ReconCase) (p : Product) (d : Int)
    (notes : Option String)
    (hc : db.cases.find? (fun e => e.1 == id && e.2.status == "pending") = some (id, c))
    (hd : c.deficit = d)
    (hp : lookup db.products c.productRef = some p)
    (hupp : 1 ≤ p.unitsPerPack) :
    ∃ c1 s1,
      adjustStockFromReconciliation db id d notes =
        (.adjusted c1 s1,
          ⟨setCase db.cases id c1, setStock db.products p.pid s1,
            db.logs ++ [⟨"stock_adjust", p.pid, d, some id⟩]⟩) ∧
      totalUnits p.unitsPerPack s1 = totalUnits p.unitsPerPack p.stock + d ∧
      c1.status = "adjusted" ∧ c1.action = some "stock_adjusted" ∧
      c1.resolvedAtSet = true := by
  refine ⟨{ c with
      status := "adjusted"
      resolvedAtSet := true
      resolutionNotes := some (notes.getD "Stock adjusted")
      action := some "stock_adjusted" },
    addStock p.unitsPerPack p.stock 0 d, ?_, ?_, rfl, rfl, rfl⟩
  · unfold adjustStockFromReconciliation
    rw [hc]
    dsimp only
    rw [hp]
  · have h := @addStock_total p.unitsPerPack (by omega) p.stock 0 d
    simpa using h

/-- Witness for C8 on the example ledger: pending case with deficit 2,
product with 3 loose units. -/
theorem claim_C8_witness :
    exRecDb.cases.find? (fun e => e.1 == 1 && e.2.status == "pending") =
      some (1, exCase) ∧
    (∃ c1 s1,
      adjustStockFromReconciliation exRecDb 1 2 none =
        (.adjusted c1 s1,
          ⟨setCase exRecDb.cases 1 c1, setStock exRecDb.products exProd.pid s1,
            exRecDb.logs ++ [⟨"stock_adjust", exProd.pid, 2, some 1⟩]⟩) ∧
      totalUnits exProd.unitsPerPack s1 =
        totalUnits exProd.unitsPerPack exProd.stock + 2 ∧
      c1.status = "adjusted" ∧ c1.action = some "stock_adjusted" ∧
      c1.resolvedAtSet = true) :=
  ⟨by decide, claim_C8 exRecDb 1 exCase exProd 2 none (by decide) rfl (by decide)
    (by decide)⟩

/-- C3 counterexample: `updateReconciliation` has no transition guard — a
terminal (`adjusted`) case is moved straight back to `pending` by a status
update, so the status field is not forward-only. -/
theorem claim_C3_counterexample :
    updateReconciliation
      ⟨[(1, ⟨0, "Amoxicillin", 5, 3, 2, "adjusted", none, some "stock_adjusted", true⟩)],
        [], []⟩
      1 "pending" none none =
    (.updated ⟨0, "Amoxicillin", 5, 3, 2, "pending", none, none, true⟩,
      ⟨[(1, ⟨0, "Amoxicillin", 5, 3, 2, "pending", none, none, true⟩)], [], []⟩) := by
  decide

/-- C3 (amended): `updateReconciliation` enforces no forward-only discipline —
it writes any requested status onto any existing case, including moving a
terminal `resolved`/`adjusted` case backward; only
`adjustStockFromReconciliation` is guarded: it requires a `pending` case, so
applied to an already-adjusted (non-pending) case it fails `NotFound` and
leaves the ledger and stock completely unchanged (no second adjustment). -/
theorem claim_C3 :
    (∀ (db : ReconDB) (id : Nat) (e : Nat × ReconCase) (st : String)
      (notes act : Option String),
      db.cases.find? (fun e1 => e1.1 == id) = some e →
      ∃ c1 db1, updateReconciliation db id st notes act = (.updated c1, db1) ∧
        c1.status = st) ∧
    (∀ (db : ReconDB) (id : Nat) (q : Int) (notes : Option String),
      db.cases.find? (fun e1 => e1.1 == id && e1.2.status == "pending") = none →
      adjustStockFromReconciliation db id q notes = (.notFound, db)) := by
  constructor
  · intro db id e st notes act h
    unfold updateReconciliation
    rw [h]
    exact ⟨_, _, rfl, rfl⟩
  · intro db id q notes h
    unfold adjustStockFromReconciliation
    rw [h]

/-- Witness for C3 on the example terminal-case ledger. -/
theorem claim_C3_witness :
    (∃ c1 db1, updateReconciliation exRecDbDone 1 "pending" none none =
      (.updated c1, db1) ∧ c1.status = "pending") ∧
    adjustStockFromReconciliation exRecDbDone 1 2 none = (.notFound, exRecDbDone) :=
  ⟨claim_C3.1 exRecDbDone 1 (1, exCaseDone) "pending" none none (by decide),
    claim_C3.2 exRecDbDone 1 2 none (by decide)⟩

/-- C10: when a subdividable per-line decrement fails (which, by the
characterization proved for C7, happens exactly on `quantity > totalUnits`),
the in-memory product document has already consumed all loose units
(`looseUnits` zeroed) but the throw happens before `product.save`, so the
persisted Stock Record is left completely unchanged: the session view after
the line (`overrideStep`) equals the view before it, and in override mode the
line still succeeds with the products untouched — a shortage line is
all-or-nothing, never partially decremented. -/
theorem claim_C10 (ut : String) (upp fp lu q : Int) (hupp : 1 ≤ upp) (hfp : 0 ≤ fp)
    (hlu : 0 ≤ lu) (hq : 0 ≤ q) (hsub : isSubdividable ut = true)
    (hfail : stockErr (updateProductStock ut upp ⟨fp, lu⟩ q) = true) :
    (subdividableRun (lowStr ut) upp ⟨fp, lu⟩ q).2.isSome = true ∧
    (subdividableRun (lowStr ut) upp ⟨fp, lu⟩ q).1 = ⟨fp, 0⟩ ∧
    lu < q ∧
    (∀ (ps : List Product) (item : ItemReq) (p : Product),
      lookup ps item.productId = some p → p.unitType = ut → p.unitsPerPack = upp →
      p.stock = ⟨fp, lu⟩ → item.quantity = q → overrideStep ps item = ps) ∧
    (∀ (tx : TxState) (item : ItemReq) (p : Product),
      lookup tx.products item.productId = some p → p.status = "active" →
      p.unitType = ut → p.unitsPerPack = upp → p.stock = ⟨fp, lu⟩ →
      item.quantity = q →
      ∃ tx1, processLine true tx item = .ok tx1 ∧ tx1.products = tx.products) := by
  have hupp0 : (0 : Int) < upp := by omega
  have htot : totalUnits upp ⟨fp, lu⟩ < q :=
    (update_err_iff_sub hupp0 hfp q hsub).mp hfail
  have hmul : 0 ≤ fp * upp := mul_nonneg hfp hupp0.le
  have hlt : lu < q := by
    unfold totalUnits at htot
    dsimp only at htot
    linarith
  have hpk : fp < ceilDiv (q - lu) upp := by
    rw [lt_ceilDiv_iff hupp0]
    unfold totalUnits at htot
    dsimp only at htot
    linarith
  have hrun : ∀ utl2 : String, subdividableRun utl2 upp ⟨fp, lu⟩ q =
      (⟨fp, 0⟩, some ("Not enough " ++ utl2 ++ " available")) := by
    intro utl2
    unfold subdividableRun
    rw [min_eq_right hlt.le]
    dsimp only
    rw [if_pos (by omega : (0 : Int) < q - lu)]
    rw [if_pos hpk]
    simp
  have herr2 : ∀ utl2, handleSubdividableProduct utl2 upp ⟨fp, lu⟩ q =
      .error ("Not enough " ++ utl2 ++ " available") := by
    intro utl2
    unfold handleSubdividableProduct
    rw [hrun utl2]
  have hupd : ∀ ut2, isSubdividable ut2 = true →
      updateProductStock ut2 upp ⟨fp, lu⟩ q =
        .error ("Not enough " ++ lowStr ut2 ++ " available") := by
    intro ut2 h2
    unfold updateProductStock
    rw [if_pos h2]
    exact herr2 (lowStr ut2)
  refine ⟨by rw [hrun]; rfl, by rw [hrun], hlt, ?_, ?_⟩
  · intro ps item p hl hput hpupp hpstock hiq
    have hu : updateProductStock p.unitType p.unitsPerPack p.stock item.quantity =
        .error ("Not enough " ++ lowStr ut ++ " available") := by
      rw [hput, hpupp, hpstock, hiq]
      exact hupd ut hsub
    exact overrideStep_eq_err hl hu
  · intro tx item p hl hact hput hpupp hpstock hiq
    have hupp2 : 0 < p.unitsPerPack := by rw [hpupp]; omega
    have hfp2 : 0 ≤ p.stock.fullPacks := by
      rw [hpstock]
      exact hfp
    obtain ⟨tr, hline, _⟩ := processLine_override hl hact hupp2 hfp2
    have hstep : overrideStep tx.products item = tx.products := by
      have hu : updateProductStock p.unitType p.unitsPerPack p.stock item.quantity =
          .error ("Not enough " ++ lowStr ut ++ " available") := by
        rw [hput, hpupp, hpstock, hiq]
        exact hupd ut hsub
      exact overrideStep_eq_err hl hu
    exact ⟨_, hline, by dsimp only; rw [hstep]⟩

/-- Witness for C10: Tablets, `unitsPerPack = 10`, stock `⟨0, 3⟩`,
`quantity = 5` (the mutator throws after consuming the 3 loose units in
memory). -/
theorem claim_C10_witness :
    stockErr (updateProductStock "Tablets" 10 ⟨0, 3⟩ 5) = true ∧
    ((subdividableRun (lowStr "Tablets") 10 ⟨0, 3⟩ 5).2.isSome = true ∧
      (subdividableRun (lowStr "Tablets") 10 ⟨0, 3⟩ 5).1 = ⟨0, 0⟩ ∧
      (3 : Int) < 5 ∧
      (∀ (ps : List Product) (item : ItemReq) (p : Product),
        lookup ps item.productId = some p → p.unitType = "Tablets" →
        p.unitsPerPack = 10 → p.stock = ⟨0, 3⟩ → item.quantity = 5 →
        overrideStep ps item = ps) ∧
      (∀ (tx : TxState) (item : ItemReq) (p : Product),
        lookup tx.products item.productId = some p → p.status = "active" →
        p.unitType = "Tablets" → p.unitsPerPack = 10 → p.stock = ⟨0, 3⟩ →
        item.quantity = 5 →
        ∃ tx1, processLine true tx item = .ok tx1 ∧ tx1.products = tx.products)) :=
  ⟨by decide, claim_C10 "Tablets" 10 0 3 5 (by norm_num) (by norm_num) (by norm_num)
    (by norm_num) (by decide) (by decide)⟩

/-- C2 counterexample: an override-mode sale with a real deficit commits and
creates its Reconciliation Case, but the `reconSave` persistence event occurs
strictly *before* the `commitTx` event (the case is saved with the sale's own
session, inside the transaction), and nothing at all happens after commit —
refuting the claim that cases are created after the sale transaction commits,
outside that transaction. -/
theorem claim_C2_counterexample :
    isCommitted (processSale exDb exReq true).outcome = true ∧
    (processSale exDb exReq true).db.recons =
      [⟨0, "Amoxicillin", 5, 3, 2, "pending", none, none, false⟩] ∧
    (preCommit (processSale exDb exReq true).trace).any isReconSave = true ∧
    (postCommit (processSale exDb exReq true).trace).any isReconSave = false := by
  decide

/-- C2 (amended): reconciliation cases for override warnings are created
*inside* the sale's transaction, before commit — no persistence event of
`processSale` (reconciliation saves included) ever follows the commit event —
and their creation is best-effort and non-fatal: a failure inside
`createReconciliationRecords` (modelled by `reconOk = false`) changes nothing
about the sale's outcome or the committed products, sales and logs; only the
recorded cases are missing. -/
theorem claim_C2 :
    (∀ (db : DB) (req : SaleReq) (reconOk : Bool),
      postCommit (processSale db req reconOk).trace = []) ∧
    (∀ (db : DB) (req : SaleReq),
      (processSale db req false).outcome = (processSale db req true).outcome ∧
      (processSale db req false).db.products = (processSale db req true).db.products ∧
      (processSale db req false).db.sales = (processSale db req true).db.sales ∧
      (processSale db req false).db.logs = (processSale db req true).db.logs ∧
      (processSale db req false).db.recons = db.recons) := by
  constructor
  · intro db req reconOk
    unfold processSale
    cases hpi : processItems req.ignoreStock ⟨db.products, 0, [], [], []⟩ req.items with
    | error o =>
      exact postCommit_nil (by simp)
    | ok tx =>
      dsimp only
      have hnc : Ev.commitTx ∉ tx.trace := by
        intro hmem
        rcases processItems_trace hpi _ hmem with h | ⟨pid, s, h⟩
        · simp at h
        · simp at h
      by_cases hpay : req.amountPaid < tx.totalAmount
      · rw [if_pos hpay]
        exact postCommit_nil (by simp [hnc])
      · rw [if_neg hpay]
        cases hlog : saleLogs tx.products req.items with
        | none =>
          apply postCommit_nil
          simp [List.mem_append, hnc]
        | some logs =>
          apply postCommit_append_commit
          simp [List.mem_append, hnc]
  · intro db req
    unfold processSale
    cases hpi : processItems req.ignoreStock ⟨db.products, 0, [], [], []⟩ req.items with
    | error o => exact ⟨rfl, rfl, rfl, rfl, rfl⟩
    | ok tx =>
      dsimp only
      by_cases hpay : req.amountPaid < tx.totalAmount
      · simp [if_pos hpay]
      · simp only [if_neg hpay]
        cases hlog : saleLogs tx.products req.items with
        | none => exact ⟨rfl, rfl, rfl, rfl, rfl⟩
        | some logs =>
          refine ⟨rfl, rfl, rfl, rfl, ?_⟩
          have hfalse : (if req.ignoreStock && !tx.stockWarnings.isEmpty then
              createReconciliationRecords tx.products tx.stockWarnings false
            else []) = [] := by
            split
            · rfl
            · rfl
          show db.recons ++ (if req.ignoreStock && !tx.stockWarnings.isEmpty then
              createReconciliationRecords tx.products tx.stockWarnings false
            else []) = db.recons
          rw [hfalse]
          simp

theorem processSale_commit (db : DB) (req : SaleReq) (reconOk : Bool) {tx : TxState}
    {logs : List LogEntry}
    (hrun : processItems req.ignoreStock ⟨db.products, 0, [], [], []⟩ req.items = .ok tx)
    (hpay : ¬ req.amountPaid < tx.totalAmount)
    (hlog : saleLogs tx.products req.items = some logs) :
    processSale db req reconOk =
      ⟨.committed ⟨tx.saleItems, tx.totalAmount, tx.totalAmount, req.amountPaid,
          max 0 (req.amountPaid - tx.totalAmount), req.paymentMethod.getD "cash",
          req.ignoreStock, tx.stockWarnings⟩ tx.stockWarnings,
        ⟨tx.products,
          db.sales ++ [⟨tx.saleItems, tx.totalAmount, tx.totalAmount, req.amountPaid,
            max 0 (req.amountPaid - tx.totalAmount), req.paymentMethod.getD "cash",
            req.ignoreStock, tx.stockWarnings⟩],
          db.recons ++ (if req.ignoreStock && !tx.stockWarnings.isEmpty then
            createReconciliationRecords tx.products tx.stockWarnings reconOk else []),
          db.logs ++ logs⟩,
        tx.trace ++ [.saleSave] ++
          (if req.ignoreStock && !tx.stockWarnings.isEmpty then
            createReconciliationRecords tx.products tx.stockWarnings reconOk
          else []).map Ev.reconSave ++ logs.map (fun _ => Ev.logSave) ++ [.commitTx]⟩ := by
  unfold processSale
  rw [hrun]
  dsimp only
  rw [if_neg hpay]
  rw [hlog]

/-- C4 counterexample: strict mode, a whole-unit product (Bottles,
`unitsPerPack = 5`, stock `⟨1, 0⟩`) and the sale [2 bottles, 7 bottles].  The
second line is a genuine shortage (7 > totalUnits = 5), so the original
claim's hypotheses hold; but the *first* line (2 ≤ totalUnits, yet
2 > fullPacks + looseUnits = 1) makes `product.save` throw a ValidationError
which strict mode does not catch, so `processSale` answers the 500 server
error — not the claimed `InsufficientStock` shortfall.  The rollback half
does hold: the tenant state is unchanged. -/
theorem claim_C4_counterexample :
    (∃ it ∈ exReqW.items, ∃ p, lookup exDbW.products it.productId = some p ∧
      totalUnits p.unitsPerPack p.stock < it.quantity) ∧
    exReqW.ignoreStock = false ∧
    (processSale exDbW exReqW true).outcome = .serverError ∧
    (∀ n a r, (processSale exDbW exReqW true).outcome ≠ .insufficientStock n a r) ∧
    (processSale exDbW exReqW true).db = exDbW := by
  refine ⟨⟨⟨0, 7⟩, by decide, exProdW, by decide, by decide⟩, rfl, by decide, ?_,
    by decide⟩
  intro n a r hc
  rw [show (processSale exDbW exReqW true).outcome = .serverError from by decide] at hc
  exact SaleOutcome.noConfusion hc

/-- C4 (amended): in strict mode, a sale containing any line whose quantity
exceeds that product's `totalUnits` never commits, and the whole tenant
state — every Stock Record of every line included — is exactly what it was
before the sale (mutations applied for earlier lines are rolled back with the
aborted transaction).  The outcome is either the `InsufficientStock` response
with a genuine shortfall (`available < requested`) or — when an earlier
whole-unit line within `totalUnits` but beyond `fullPacks + looseUnits`
makes `product.save` throw a ValidationError that strict mode does not
catch — the 500 server error.  When every line's product is subdividable the
outcome is exactly the `InsufficientStock` shortfall. -/
theorem claim_C4 (db : DB) (req : SaleReq) (reconOk : Bool)
    (hmode : req.ignoreStock = false)
    (hgood : ∀ p ∈ db.products, GoodProd p)
    (hitems : ∀ it ∈ req.items, 0 ≤ it.quantity ∧
      ∃ p, lookup db.products it.productId = some p ∧ p.status = "active")
    (hover : ∃ it ∈ req.items, ∃ p, lookup db.products it.productId = some p ∧
      totalUnits p.unitsPerPack p.stock < it.quantity) :
    ((∃ n a r, (processSale db req reconOk).outcome = .insufficientStock n a r ∧ a < r) ∨
      (processSale db req reconOk).outcome = .serverError) ∧
    isCommitted (processSale db req reconOk).outcome = false ∧
    (processSale db req reconOk).db = db ∧
    ((∀ it ∈ req.items, ∀ p, lookup db.products it.productId = some p →
        isSubdividable p.unitType = true) →
      ∃ n a r, (processSale db req reconOk).outcome = .insufficientStock n a r ∧
        a < r) := by
  have F0 : List.Forall₂ Evolves db.products db.products :=
    List.forall₂_same.mpr (fun p hp => evolves_refl (hgood p hp))
  rcases processItems_strict_aborts hgood req.items ⟨db.products, 0, [], [], []⟩ F0
      hitems hover with ⟨n, a, r, habort, har⟩ | habort
  · have hps : processSale db req reconOk =
        ⟨.insufficientStock n a r, db, [.abortTx]⟩ := by
      unfold processSale
      rw [hmode, habort]
    rw [hps]
    exact ⟨Or.inl ⟨n, a, r, rfl, har⟩, rfl, rfl, fun _ => ⟨n, a, r, rfl, har⟩⟩
  · have hps : processSale db req reconOk = ⟨.serverError, db, [.abortTx]⟩ := by
      unfold processSale
      rw [hmode, habort]
    rw [hps]
    refine ⟨Or.inr rfl, rfl, rfl, ?_⟩
    intro hsubs
    obtain ⟨n1, a1, r1, habort1, har1⟩ := processItems_strict hgood req.items
      ⟨db.products, 0, [], [], []⟩ F0 hitems hsubs hover
    rw [habort] at habort1
    injection habort1 with h2
    exact SaleOutcome.noConfusion h2

/-- Witness for C4: strict mode, one all-subdividable line requesting 25 of
23 available. -/
theorem claim_C4_witness :
    (((∃ n a r, (processSale exDbB exReqB true).outcome = .insufficientStock n a r ∧
        a < r) ∨
      (processSale exDbB exReqB true).outcome = .serverError) ∧
    isCommitted (processSale exDbB exReqB true).outcome = false ∧
    (processSale exDbB exReqB true).db = exDbB ∧
    ((∀ it ∈ exReqB.items, ∀ p, lookup exDbB.products it.productId = some p →
        isSubdividable p.unitType = true) →
      ∃ n a r, (processSale exDbB exReqB true).outcome = .insufficientStock n a r ∧
        a < r)) :=
  claim_C4 exDbB exReqB true rfl
    (by
      intro p hp
      simp only [exDbB, List.mem_singleton] at hp
      subst hp
      exact ⟨by decide, by decide, by decide⟩)
    (by
      intro it hit
      simp only [exReqB, List.mem_singleton] at hit
      subst hit
      exact ⟨by decide, exProdB, by decide, rfl⟩)
    ⟨⟨0, 25⟩, by decide, exProdB, by decide, by decide⟩

/-- C5: in override mode, every sale whose items are found and active and
whose payment covers the computed total commits, its recorded stock warnings
are exactly one per line whose quantity exceeded that product's `totalUnits`
at the moment the line was processed (`overrideWarnings`, none for covered
lines), and the Reconciliation Cases appended by the sale correspond
one-to-one to those warnings — each created `pending` with the warning's
requested quantity, available-at-sale-time stock and
`deficit = requested - available > 0`. -/
theorem claim_C5 (db : DB) (req : SaleReq)
    (hmode : req.ignoreStock = true)
    (hgood : ∀ p ∈ db.products, GoodProd p)
    (hitems : ∀ it ∈ req.items, 0 ≤ it.quantity ∧
      ∃ p, lookup db.products it.productId = some p ∧ p.status = "active")
    (hpay : itemsTotal db.products req.items ≤ req.amountPaid) :
    ∃ sale cases,
      (processSale db req true).outcome =
        .committed sale (overrideWarnings db.products req.items) ∧
      sale.stockWarnings = overrideWarnings db.products req.items ∧
      (processSale db req true).db.recons = db.recons ++ cases ∧
      List.Forall₂ ReconMatches (overrideWarnings db.products req.items) cases ∧
      (∀ w ∈ overrideWarnings db.products req.items,
        w.deficit = w.requested - w.available ∧ 0 < w.deficit) := by
  have F0 : List.Forall₂ Evolves db.products db.products :=
    List.forall₂_same.mpr (fun p hp => evolves_refl (hgood p hp))
  obtain ⟨tx1, hrun, F1, htot, hwarn⟩ :=
    processItems_override hgood req.items ⟨db.products, 0, [], [], []⟩ F0 hitems
  have hwarn2 : tx1.stockWarnings = overrideWarnings db.products req.items := by
    simpa using hwarn
  have htot2 : tx1.totalAmount = itemsTotal db.products req.items := by simpa using htot
  have hpay2 : ¬ req.amountPaid < tx1.totalAmount := by
    rw [htot2]
    exact not_lt.mpr hpay
  have hlogs : ∃ logs, saleLogs tx1.products req.items = some logs := by
    apply saleLogs_some
    intro it hit
    obtain ⟨_, p, hp, _⟩ := hitems it hit
    rcases lookup_rel (fun a b h => h.1.1) F1 it.productId with ⟨hn, _⟩ |
      ⟨pa, pb, hpa, hpb, _⟩
    · rw [hp] at hn; cases hn
    · exact ⟨pb, hpb⟩
  obtain ⟨logs, hlog⟩ := hlogs
  have hwfacts := overrideWarnings_facts req.items db.products
  have hnames : tx1.products.map (fun p => p.name) = db.products.map (fun p => p.name) :=
    names_forall₂ (fun a b h => h.1.2.1) F1
  have hcorr : List.Forall₂ ReconMatches (overrideWarnings db.products req.items)
      (createReconciliationRecords tx1.products (overrideWarnings db.products req.items)
        true) := by
    apply createRecon_forall₂
    intro w hw
    refine ⟨(hwfacts w hw).2.1, ?_⟩
    rw [hnames]
    exact (hwfacts w hw).2.2
  have hrun2 : processItems req.ignoreStock ⟨db.products, 0, [], [], []⟩ req.items =
      .ok tx1 := by
    rw [hmode]
    exact hrun
  rw [processSale_commit db req true hrun2 hpay2 hlog]
  rw [hwarn2, hmode]
  dsimp only
  refine ⟨_, _, rfl, rfl, rfl, ?_, fun w hw => ⟨(hwfacts w hw).1, (hwfacts w hw).2.1⟩⟩
  by_cases hempty : overrideWarnings db.products req.items = []
  · rw [hempty]
    simp
  · have hne : (overrideWarnings db.products req.items).isEmpty = false := by
      cases hcase : overrideWarnings db.products req.items with
      | nil => exact absurd hcase hempty
      | cons a l => rfl
    simp only [hne, Bool.not_false, Bool.and_true, if_true, Bool.true_and]
    exact hcorr

/-- Witness for C5: override mode, one Tablets line requesting 5 of the 3
available units, payment exactly covering the total. -/
theorem claim_C5_witness :
    (⟨[⟨0, 5⟩], none, 25, true⟩ : SaleReq).ignoreStock = true ∧
    (∃ sale cases,
      (processSale exDb exReq true).outcome =
        .committed sale (overrideWarnings exDb.products exReq.items) ∧
      sale.stockWarnings = overrideWarnings exDb.products exReq.items ∧
      (processSale exDb exReq true).db.recons = exDb.recons ++ cases ∧
      List.Forall₂ ReconMatches (overrideWarnings exDb.products exReq.items) cases ∧
      (∀ w ∈ overrideWarnings exDb.products exReq.items,
        w.deficit = w.requested - w.available ∧ 0 < w.deficit)) :=
  ⟨rfl,
    claim_C5 exDb exReq rfl
      (by
        intro p hp
        simp only [exDb, List.mem_singleton] at hp
        subst hp
        exact ⟨by decide, by decide, by decide⟩)
      (by
        intro it hit
        simp only [exReq, List.mem_singleton] at hit
        subst hit
        exact ⟨by decide, exProd, by decide, rfl⟩)
      (by decide)⟩

end Digichem
